import Mathlib

/-!
# Verification of the openclawstuff transcript-ingestion core

Shallow embedding of the repository's session-log parsing and aggregation
logic (the tasks / journal / activity API routes and the sync service),
with theorems settling the specification claims.

Strings are modelled as `List Char` (`Str`); parsed JSON records as the
`JVal` inductive.  JavaScript runtime library primitives that the code
calls but that are not part of the repository (Date parsing/formatting,
`JSON.parse` of nested strings, number formatting) are abstracted as the
fields of a `JsRt` parameter; everything else is translated directly from
the source.
-/

set_option maxHeartbeats 1000000

/-- JavaScript strings, modelled as lists of characters. -/
abbrev Str := List Char

/-- Coerce a Lean string literal into the model's string type. -/
def strOf (s : String) : Str := s.data

/-- The whitespace class used by JS `trim`, `\s`, `split(/\s+/)` (ASCII part;
the rarely-hit unicode space characters are omitted). -/
def isJsWs (c : Char) : Bool :=
  c = ' ' || c = '\t' || c = '\n' || c = '\r' || c = '\x0b' || c = '\x0c'

/-- Left trim: drop leading whitespace. -/
def ltrim (s : Str) : Str := s.dropWhile isJsWs

/-- Right trim: drop trailing whitespace. -/
def rtrim (s : Str) : Str := ((s.reverse).dropWhile isJsWs).reverse

/-- JS `String.prototype.trim`. -/
def jsTrim (s : Str) : Str := rtrim (ltrim s)

/-- JS `hay.includes(needle)`. -/
def jsIncludes (hay needle : Str) : Bool :=
  if needle.isPrefixOf hay then true else
  match hay with
  | [] => false
  | _ :: t => jsIncludes t needle

/-- JS `String.prototype.toLowerCase` (ASCII; enough for the transcripts). -/
def jsLower (s : Str) : Str := s.map Char.toLower

/-- JS `s.split(c)`: splits on every occurrence, keeping empty segments. -/
def splitCh (c : Char) : Str → List Str
  | [] => [[]]
  | x :: xs =>
    let r := splitCh c xs
    if x = c then [] :: r
    else
      match r with
      | [] => [[x]]
      | h :: t => (x :: h) :: t

/-- JS `s.split(/\s+/)` after a `trim()`: the whitespace-separated words. -/
def splitWs : Str → List Str
  | [] => []
  | x :: xs =>
    if isJsWs x then splitWs xs
    else
      match splitWs xs with
      | [] => [[x]]
      | h :: t =>
        match xs with
        | [] => [[x]]
        | y :: _ => if isJsWs y then [x] :: h :: t else (x :: h) :: t

/-- A parsed JSON value (the result of the runtime's `JSON.parse` on one
transcript line).  Numbers are modelled as integers: every claim settled
here is insensitive to fractional token costs, and IEEE-754 rounding is
outside the embedding (divisions below are exact). -/
inductive JVal where
  | jnull
  | jbool (b : Bool)
  | jnum (q : ℤ)
  | jstr (s : Str)
  | jarr (xs : List JVal)
  | jobj (fs : List (Str × JVal))

open JVal

/-- JS property access `v.k`: field lookup on an object, `undefined`
(here `none`) on anything else. -/
def jget (v : JVal) (k : Str) : Option JVal :=
  match v with
  | jobj fs => (fs.find? (fun f => f.1 == k)).map Prod.snd
  | _ => none

/-- JS truthiness of a defined value. -/
def truthyV : JVal → Bool
  | jnull => false
  | jbool b => b
  | jnum q => q ≠ 0
  | jstr s => s ≠ []
  | jarr _ => true
  | jobj _ => true

/-- JS truthiness of a possibly-`undefined` value. -/
def truthy : Option JVal → Bool
  | none => false
  | some v => truthyV v

/-- JS `a || b` for a possibly-undefined `a` and a default value. -/
def jsOr (a : Option JVal) (b : JVal) : JVal :=
  match a with
  | some v => if truthyV v then v else b
  | none => b

/-- A string-valued field, or `none` when absent or not a string. -/
def asStr (v : Option JVal) : Option Str :=
  match v with
  | some (jstr s) => some s
  | _ => none

/-- Key equality of the JS `Map`/`Set` SameValueZero semantics as it applies
here: primitives compare by value; arrays/objects compare by reference, and
every key reaching a map in this code is a freshly parsed value, so two
non-primitive keys are never the same reference. -/
def jkeyEq : JVal → JVal → Bool
  | jnull, jnull => true
  | jbool a, jbool b => a = b
  | jnum a, jnum b => a = b
  | jstr a, jstr b => a = b
  | _, _ => false

/-- Embeds `m.get(k)` on an association-list model of a JS `Map`. -/
def mapGet {β : Type} (m : List (JVal × β)) (k : JVal) : Option β :=
  (m.find? (fun e => jkeyEq e.1 k)).map Prod.snd

/-- Embeds `m.set(k, v)`: replace in place when the key exists, else append. -/
def mapSet {β : Type} (m : List (JVal × β)) (k : JVal) (v : β) : List (JVal × β) :=
  match m with
  | [] => [(k, v)]
  | e :: t => if jkeyEq e.1 k then (k, v) :: t else e :: mapSet t k v

/-- Embeds `s.add(x)` on an insertion-ordered JS `Set` of parsed values. -/
def setAdd (s : List JVal) (x : JVal) : List JVal :=
  if s.any (fun y => jkeyEq y x) then s else s ++ [x]

/-- Embeds `s.has(x)` on a JS `Set` of parsed values. -/
def setHas (s : List JVal) (x : JVal) : Bool :=
  s.any (fun y => jkeyEq y x)

/-- Abstracted JavaScript runtime library primitives (Date and number
formatting, nested `JSON.parse`).  These are not repository code; each
embedding theorem is proved for every instantiation, and concrete
evaluations pick a simple one. -/
structure JsRt where
  /-- Embeds `JSON.parse` applied to a string found inside an already-parsed value;
  `none` models a parse exception. -/
  jsonParse : Str → Option JVal
  /-- Embeds `new Date(s).getTime()` for a string timestamp. -/
  getTimeS : Str → Int
  /-- Embeds `new Date(v).getTime()` for an arbitrary stored value. -/
  getTimeV : JVal → Int
  /-- Embeds `new Date(v).toISOString()`. -/
  toIsoV : JVal → Str
  /-- Embeds `new Date().toISOString()` at the moment the route runs. -/
  nowIso : Str
  /-- JS number-to-string conversion. -/
  numToStr : ℤ → Str
  /-- Embeds `x.toFixed(4)` (library float formatting, applied to a stored value). -/
  toFixed4 : JVal → Str
  /-- The `formatDayLabel` date pretty-printer (pure `Date` arithmetic). -/
  dayLabel : Str → Str
  /-- Embeds `Array.prototype.toString` (library recursion over the elements). -/
  arrToStr : List JVal → Str
  /-- Embeds `JSON.stringify` of a defined value (library recursion). -/
  stringify : JVal → Str

/-- JS `String(v)` / template-literal conversion of a stored value. -/
def jsToStr (rt : JsRt) : JVal → Str
  | JVal.jnull => strOf (r"null")
  | JVal.jbool true => strOf (r"true")
  | JVal.jbool false => strOf (r"false")
  | JVal.jnum q => rt.numToStr q
  | JVal.jstr s => s
  | JVal.jarr xs => rt.arrToStr xs
  | JVal.jobj _ => strOf (r"[object Object]")

/-- Embeds `a || b` where both sides may be undefined (used for
`entry.timestamp || msg.timestamp`). -/
def jsOrO (a b : Option JVal) : Option JVal :=
  match a with
  | some v => if truthyV v then some v else b
  | none => b

/-- Strict JS `===` comparison of a field against a string literal. -/
def isStrEq (v : Option JVal) (s : String) : Bool :=
  match v with
  | some (JVal.jstr t) => t = s.data
  | _ => false

/-- The double-quote character. -/
def dq : Char := '"'

/-- First-match semantics of `text.match(/subagent task "([^"]+)"/)`:
scan left to right for the literal `subagent task "`, then a nonempty run
of non-quote characters closed by a quote; on failure at one position the
scan resumes one character later. -/
def scanQuoteCapture (lit : Str) : Str → Option Str
  | [] => none
  | c :: t =>
    if lit.isPrefixOf (c :: t) then
      let rest := (c :: t).drop lit.length
      let cap := rest.takeWhile (fun ch => ch ≠ dq)
      if !cap.isEmpty && cap.length < rest.length then some cap
      else scanQuoteCapture lit t
    else scanQuoteCapture lit t

/-- The literal scanned for by the completion-detection regex. -/
def subagentTaskLit : Str := strOf (r"subagent task ") ++ [dq]

/-- Embeds `s.replace(sub, repl)` for plain-string patterns: replaces the first
occurrence only. -/
def replaceOnce (sub repl : Str) : Str → Str
  | [] => []
  | c :: t =>
    if sub.isPrefixOf (c :: t) && !sub.isEmpty then repl ++ (c :: t).drop sub.length
    else c :: replaceOnce sub repl t

/-- A pending spawn record inside `parseSessionFiles` of the tasks route. -/
structure SpawnRec where
  label : JVal
  task : JVal
  model : JVal
  timestamp : Str
  childSessionKey : JVal

/-- A pending completion record inside `parseSessionFiles`. -/
structure CompletionRec where
  success : Bool
  timestamp : JVal

/-- An `AgentTask` of `src/app/api/tasks/route.ts`. -/
structure AgentTask where
  id : Str
  label : JVal
  description : JVal
  model : JVal
  status : Str
  spawned_at : Str
  completed_at : Option JVal
  duration : Option Str
  sessionId : Str

/-- The two maps accumulated over one session file's lines. -/
structure TasksAcc where
  spawns : List (JVal × SpawnRec)
  completions : List (JVal × CompletionRec)

/-- Embeds `arguments` normalisation of a spawn toolCall block: a string argument
is `JSON.parse`d, with the raw string kept on a parse exception. -/
def spawnArgs (rt : JsRt) (v : Option JVal) : Option JVal :=
  match v with
  | some (JVal.jstr s) => some ((rt.jsonParse s).getD (JVal.jstr s))
  | some v => some v
  | none => none

/-- Whether a content block is a `sessions_spawn` toolCall
(tasks route, line 76). -/
def isSpawnBlock (block : JVal) : Bool :=
  isStrEq (jget block (strOf (r"type"))) "toolCall" &&
    isStrEq (jget block (strOf (r"name"))) "sessions_spawn"

/-- The label extracted from a spawn toolCall block
(tasks route, lines 77-78). -/
def spawnLabelOf (rt : JsRt) (block : JVal) : JVal :=
  jsOr ((spawnArgs rt (jget block (strOf (r"arguments")))).bind
    (fun a => jget a (strOf (r"label")))) (JVal.jstr (strOf (r"unnamed")))

/-- The spawn-detection handling of one content block
(tasks route, lines 76-88). -/
def procSpawnBlock (rt : JsRt) (entryTs msgTs : Option JVal)
    (sp : List (JVal × SpawnRec)) (block : JVal) : List (JVal × SpawnRec) :=
  if isSpawnBlock block then
    let args := spawnArgs rt (jget block (strOf (r"arguments")))
    let label := spawnLabelOf rt block
    let task := jsOr (args.bind (fun a => jget a (strOf (r"task")))) (JVal.jstr [])
    let model := jsOr (args.bind (fun a => jget a (strOf (r"model")))) (JVal.jstr (strOf (r"default")))
    let ts :=
      match jsOrO entryTs msgTs with
      | some v => if truthyV v then rt.toIsoV v else rt.nowIso
      | none => rt.nowIso
    mapSet sp label ⟨label, task, model, ts, JVal.jstr []⟩
  else sp

/-- The spawn-detection branch over the blocks of an assistant message
(tasks route, lines 74-90). -/
def procSpawnBlocks (rt : JsRt) (entryTs msgTs : Option JVal)
    (blocks : List JVal) (spawns : List (JVal × SpawnRec)) : List (JVal × SpawnRec) :=
  blocks.foldl (procSpawnBlock rt entryTs msgTs) spawns

/-- Assign a `childSessionKey` to the first spawn that lacks one
(tasks route, lines 100-106). -/
def assignChildKey (key : JVal) : List (JVal × SpawnRec) → List (JVal × SpawnRec)
  | [] => []
  | (k, sp) :: t =>
    if truthyV sp.childSessionKey then (k, sp) :: assignChildKey key t
    else (k, { sp with childSessionKey := key }) :: t

/-- The spawn-result branch (tasks route, lines 93-111).  A non-string
`text` block would be coerced by the JS library before parsing; every
value of interest is a string, and the coercion of anything else is
modelled as a parse failure. -/
def procSpawnResultBlock (rt : JsRt) (sp : List (JVal × SpawnRec)) (c : JVal) :
    List (JVal × SpawnRec) :=
  if isStrEq (jget c (strOf (r"type"))) "text" then
    match asStr (jget c (strOf (r"text"))) with
    | some s =>
      match rt.jsonParse s with
      | some parsed =>
        if truthy (jget parsed (strOf (r"childSessionKey"))) then
          assignChildKey ((jget parsed (strOf (r"childSessionKey"))).getD JVal.jnull) sp
        else sp
      | none => sp
    | none => sp
  else sp

/-- The spawn-result branch over the blocks of a toolResult message. -/
def procSpawnResultBlocks (rt : JsRt) (blocks : List JVal)
    (spawns : List (JVal × SpawnRec)) : List (JVal × SpawnRec) :=
  blocks.foldl (procSpawnResultBlock rt) spawns

/-- The completion-detection branch over the blocks of a user message
(tasks route, lines 114-128). -/
def procCompletionBlocks (rt : JsRt) (entryTs : Option JVal)
    (blocks : List JVal) (completions : List (JVal × CompletionRec)) : List (JVal × CompletionRec) :=
  blocks.foldl (fun cs block =>
    if isStrEq (jget block (strOf (r"type"))) "text" then
      match asStr (jget block (strOf (r"text"))) with
      | some text =>
        if jsIncludes text (strOf (r"[System Message]")) &&
           jsIncludes text (strOf (r"subagent task")) then
          match scanQuoteCapture subagentTaskLit text with
          | some lab =>
            let success := jsIncludes text (strOf (r"completed successfully"))
            mapSet cs (JVal.jstr lab) ⟨success, jsOr entryTs (JVal.jstr rt.nowIso)⟩
          | none => cs
        else cs
      | none => cs
    else cs) completions

/-- The assistant-role spawn branch of the tasks-route loop
(lines 74-90). -/
def procTasksAssist (rt : JsRt) (entry msg : JVal) (acc : TasksAcc) : TasksAcc :=
  if isStrEq (jget msg (strOf (r"role"))) "assistant" then
    match jget msg (strOf (r"content")) with
    | some (JVal.jarr blocks) =>
      let entryTs := jget entry (strOf (r"timestamp"))
      let msgTs := jget msg (strOf (r"timestamp"))
      { acc with spawns := procSpawnBlocks rt entryTs msgTs blocks acc.spawns }
    | _ => acc
  else acc

/-- The toolResult spawn-result branch of the tasks-route loop
(lines 93-111). -/
def procTasksResult (rt : JsRt) (msg : JVal) (acc : TasksAcc) : TasksAcc :=
  if isStrEq (jget msg (strOf (r"role"))) "toolResult" &&
     isStrEq (jget msg (strOf (r"toolName"))) "sessions_spawn" then
    let blocks :=
      match jget msg (strOf (r"content")) with
      | some (JVal.jarr xs) => xs
      | _ => []
    { acc with spawns := procSpawnResultBlocks rt blocks acc.spawns }
  else acc

/-- The user-role completion branch of the tasks-route loop
(lines 114-128). -/
def procTasksCompl (rt : JsRt) (entry msg : JVal) (acc : TasksAcc) : TasksAcc :=
  if isStrEq (jget msg (strOf (r"role"))) "user" then
    match jget msg (strOf (r"content")) with
    | some (JVal.jarr blocks) =>
      let entryTs := jget entry (strOf (r"timestamp"))
      { acc with completions := procCompletionBlocks rt entryTs blocks acc.completions }
    | _ => acc
  else acc

/-- One line of the tasks-route loop (lines 61-129); a line that failed
`JSON.parse` is `none` and skipped.  The three role branches apply in
source order. -/
def procTasksLine (rt : JsRt) (acc : TasksAcc) (line : Option JVal) : TasksAcc :=
  match line with
  | none => acc
  | some entry =>
    if !isStrEq (jget entry (strOf (r"type"))) "message" then acc
    else
      match jget entry (strOf (r"message")) with
      | none => acc
      | some msg =>
        if !truthyV msg then acc
        else
          procTasksCompl rt entry msg (procTasksResult rt msg (procTasksAssist rt entry msg acc))

/-- Embeds `${secs}s` / `${m}m ${s}s` / `${h}h ${m}m` duration formatting
(tasks route, lines 143-146). -/
def formatTaskDuration (secs : Nat) : Str :=
  if secs < 60 then (Nat.repr secs).data ++ [ 's' ]
  else if secs < 3600 then
    (Nat.repr (secs / 60)).data ++ [ 'm', ' ' ] ++ (Nat.repr (secs % 60)).data ++ [ 's' ]
  else
    (Nat.repr (secs / 3600)).data ++ [ 'h', ' ' ] ++ (Nat.repr (secs % 3600 / 60)).data ++ [ 'm' ]

/-- Description truncation (tasks route, line 151).  `spawn.task` is a
string in every well-formed transcript; on a non-string `.length` is
undefined (or the array length), the `> 200` test is false and the value
passes through — except an array longer than 200 entries, where the JS
code would throw; identity stands in for that unreachable crash. -/
def shortDescOf : JVal → JVal
  | JVal.jstr s => if s.length > 200 then JVal.jstr (s.take 200 ++ [ '…' ]) else JVal.jstr s
  | v => v

/-- Build the `AgentTask` list of one session file from the accumulated
maps (tasks route, lines 131-164). -/
def buildTasks (rt : JsRt) (file : Str) (acc : TasksAcc) : List AgentTask :=
  acc.spawns.map (fun e =>
    let label := e.1
    let spawn := e.2
    let completion := mapGet acc.completions label
    let completedAt := completion.map (fun c => c.timestamp)
    let duration : Option Str :=
      match completion with
      | some c =>
        let diffMs := rt.getTimeV c.timestamp - rt.getTimeS spawn.timestamp
        if diffMs > 0 then some (formatTaskDuration (diffMs.toNat / 1000)) else none
      | none => none
    { id := file ++ '-' :: jsToStr rt label
      label := spawn.label
      description := shortDescOf spawn.task
      model := spawn.model
      status :=
        match completion with
        | some c => if c.success then strOf (r"done") else strOf (r"failed")
        | none => strOf (r"in_progress")
      spawned_at := spawn.timestamp
      completed_at := completedAt
      duration := duration
      sessionId := replaceOnce (strOf (r".jsonl")) [] file })

/-- The per-file part of `parseSessionFiles` (tasks route, lines 48-165). -/
def parseTasksFile (rt : JsRt) (file : Str) (lines : List (Option JVal)) : List AgentTask :=
  buildTasks rt file (lines.foldl (procTasksLine rt) ⟨[], []⟩)

/-- Stable insertion into a descending-sorted list (JS `Array.sort` is
stable; equal keys keep their original order). -/
def insertDescBy {α : Type} (gt : α → α → Bool) (x : α) : List α → List α
  | [] => [x]
  | y :: ys => if gt x y then x :: y :: ys else y :: insertDescBy gt x ys

/-- Stable sort by a strict descending comparator. -/
def stableSortDescBy {α : Type} (gt : α → α → Bool) (l : List α) : List α :=
  l.foldl (fun acc x => insertDescBy gt x acc) []

/-- Embeds `parseSessionFiles` of the tasks route over the already-listed and
already-read session files (directory listing and file I/O abstracted:
a file whose read throws is simply absent from the input). -/
def parseSessionFiles (rt : JsRt) (files : List (Str × List (Option JVal))) : List AgentTask :=
  stableSortDescBy (fun a b => rt.getTimeS a.spawned_at > rt.getTimeS b.spawned_at)
    ((files.map (fun f => parseTasksFile rt f.1 f.2)).flatten)

/-! ## Sync service (`sync-service/sync.ts`) -/

/-- The numeric value of a stored number, `0` otherwise (the `|| 0`
defaults in the sync service's cost handling; a truthy non-number would
be coerced by JS `+`, which no transcript exercises). -/
def numOr0 : JVal → ℤ
  | JVal.jnum n => n
  | _ => 0

/-- A row of the remote `costs` table as POSTed by `processSyncEntry`. -/
structure CostRow where
  agent_id : Str
  model : JVal
  input_tokens : JVal
  output_tokens : JVal
  cache_tokens : ℤ
  cost_usd : ℤ
  session_id : JVal
  created_at : Str

/-- A row of the remote `tasks` table as POSTed by `processSyncEntry`. -/
structure TaskRow where
  label : JVal
  description : JVal
  status : Str
  agent_id : Str
  model : JVal
  created_at : Str
  completed_at : Option Str
  spawn_timestamp : JVal

/-- The remote ledger state the sync service writes through its REST
calls (network failures are swallowed by the code; the embedding models
the successful path). -/
structure SyncLedger where
  tasks : List TaskRow
  costs : List CostRow

/-- Embeds `findToolCall` (sync service, lines 199-209). -/
def findToolCall (content : Option JVal) (toolName : Option Str) : Option JVal :=
  match content with
  | some (JVal.jarr xs) =>
    xs.find? (fun item =>
      isStrEq (jget item (strOf (r"type"))) "toolCall" &&
        (match toolName with
         | none => true
         | some n => (match asStr (jget item (strOf (r"name"))) with
                      | some m => m = n
                      | none => false)))
  | _ => none

/-- Embeds `extractTextContent` (sync service, lines 186-197): joins every text
block with a newline and trims.  The join's string coercion of a truthy
non-string block is the library's. -/
def extractTextContent (rt : JsRt) (content : Option JVal) : Str :=
  match content with
  | some (JVal.jarr xs) =>
    jsTrim (List.intercalate [ '\n' ]
      (xs.filterMap (fun item =>
        if isStrEq (jget item (strOf (r"type"))) "text" && truthy (jget item (strOf (r"text"))) then
          some (jsToStr rt ((jget item (strOf (r"text"))).getD JVal.jnull))
        else none)))
  | _ => []

/-- The guards shared by every branch of `processSyncEntry`
(lines 212-218): a `message` entry with a truthy `message` field. -/
def syncMsgOf (e : JVal) : Option JVal :=
  if isStrEq (jget e (strOf (r"type"))) "message" then
    match jget e (strOf (r"message")) with
    | some m => if truthyV m then some m else none
    | none => none
  else none

/-- Embeds `entry.timestamp || new Date().toISOString()` (line 218). -/
def syncTimestampV (rt : JsRt) (e : JVal) : JVal :=
  jsOr (jget e (strOf (r"timestamp"))) (JVal.jstr rt.nowIso)

/-- The cost row appended for an entry carrying positive usage cost
(sync service, lines 226-248), `none` when the guards fail. -/
def costRowOf (rt : JsRt) (agentId : Str) (e : JVal) : Option CostRow :=
  match syncMsgOf e with
  | none => none
  | some msg =>
    let usage := jget msg (strOf (r"usage"))
    if truthy usage then
      match usage.bind (fun u => jget u (strOf (r"cost"))) with
      | some cv =>
        if truthyV cv then
          match jget cv (strOf (r"total")) with
          | some (JVal.jnum total) =>
            if total > 0 then
              let u := usage.getD JVal.jnull
              some { agent_id := agentId
                     model := jsOr (jget msg (strOf (r"model"))) (JVal.jstr (strOf (r"unknown")))
                     input_tokens := jsOr (jget u (strOf (r"input"))) (JVal.jnum 0)
                     output_tokens := jsOr (jget u (strOf (r"output"))) (JVal.jnum 0)
                     cache_tokens := numOr0 (jsOr (jget u (strOf (r"cacheRead"))) (JVal.jnum 0)) +
                       numOr0 (jsOr (jget u (strOf (r"cacheWrite"))) (JVal.jnum 0))
                     cost_usd := total
                     session_id := jsOr (jget e (strOf (r"id"))) (JVal.jstr (strOf (r"unknown")))
                     created_at := rt.toIsoV (syncTimestampV rt e) }
            else none
          | _ => none
        else none
      | none => none
    else none

/-- Embeds `(args.task || "").substring(0, 500)` (line 262); a truthy non-string
task would make the JS call throw, which no transcript exercises. -/
def substr500 : JVal → JVal
  | JVal.jstr s => JVal.jstr (s.take 500)
  | v => v

/-- The task row appended for a `sessions_spawn` toolCall of an assistant
message (sync service, lines 250-281), `none` when the guards fail. -/
def spawnRowOf (rt : JsRt) (agentId : Str) (e : JVal) : Option TaskRow :=
  match syncMsgOf e with
  | none => none
  | some msg =>
    if isStrEq (jget msg (strOf (r"role"))) "assistant" then
      match findToolCall (jget msg (strOf (r"content"))) (some (strOf (r"sessions_spawn"))) with
      | some spawnCall =>
        if truthy (jget spawnCall (strOf (r"arguments"))) then
          let args := jsOr (jget spawnCall (strOf (r"arguments"))) (JVal.jobj [])
          some { label := jsOr (jget args (strOf (r"label"))) (JVal.jstr (strOf (r"Spawned task")))
                 description := substr500 (jsOr (jget args (strOf (r"task"))) (JVal.jstr []))
                 status := strOf (r"in_progress")
                 agent_id := agentId
                 model := jsOr (jget args (strOf (r"model")))
                   (jsOr (jget msg (strOf (r"model"))) (JVal.jstr (strOf (r"unknown"))))
                 created_at := rt.toIsoV (syncTimestampV rt e)
                 completed_at := none
                 spawn_timestamp := syncTimestampV rt e }
        else none
      | none => none
    else none

/-- The completion update extracted from a user-role system message
(sync service, lines 284-330): the task name, the new status, and the
`completed_at` value, `none` when the guards fail. -/
def completionOf (rt : JsRt) (e : JVal) : Option (Str × Str × Str) :=
  match syncMsgOf e with
  | none => none
  | some msg =>
    if isStrEq (jget msg (strOf (r"role"))) "user" then
      let textContent := extractTextContent rt (jget msg (strOf (r"content")))
      if jsIncludes textContent (strOf (r"[System Message]")) &&
         jsIncludes textContent (strOf (r"subagent task")) then
        let isCompleted := jsIncludes textContent (strOf (r"completed successfully"))
        let isFailed := jsIncludes textContent (strOf (r"failed"))
        if isCompleted || isFailed then
          match scanQuoteCapture subagentTaskLit textContent with
          | some taskName =>
            some (taskName,
              (if isCompleted then strOf (r"done") else strOf (r"failed")),
              rt.toIsoV (syncTimestampV rt e))
          | none => none
        else none
      else none
    else none

/-- The row index the completion query selects: among rows matching the
label and agent, the one with the greatest `created_at`
(`order=created_at.desc&limit=1`); the backing store's tie order is
unspecified and modelled as the latest-inserted matching row. -/
def completionTargetIdx (rt : JsRt) (agentId : Str) (taskName : Str)
    (tasks : List TaskRow) : Option Nat :=
  let cands := (tasks.enum).filter (fun p =>
    jkeyEq p.2.label (JVal.jstr taskName) && p.2.agent_id == agentId)
  cands.foldl (fun best p =>
    match best with
    | none => some p.1
    | some b =>
      match tasks[b]? with
      | some rb => if rt.getTimeS p.2.created_at ≥ rt.getTimeS rb.created_at then some p.1 else some b
      | none => some p.1) none

/-- Apply the completion `PATCH` to the selected row. -/
def patchTask (status completedAt : Str) (idx : Nat) (tasks : List TaskRow) : List TaskRow :=
  tasks.enum.map (fun p =>
    if p.1 = idx then { p.2 with status := status, completed_at := some completedAt } else p.2)

/-- Embeds `processSyncEntry` (sync service, lines 211-334): the three branches
(cost insert, spawn insert, completion patch) applied in source order. -/
def processSyncEntry (rt : JsRt) (agentId : Str) (lg : SyncLedger) (e : JVal) : SyncLedger :=
  let lg1 : SyncLedger := { lg with costs := lg.costs ++ (costRowOf rt agentId e).toList }
  let lg2 : SyncLedger := { lg1 with tasks := lg1.tasks ++ (spawnRowOf rt agentId e).toList }
  match completionOf rt e with
  | some (taskName, status, completedAt) =>
    (match completionTargetIdx rt agentId taskName lg2.tasks with
     | some idx => { lg2 with tasks := patchTask status completedAt idx lg2.tasks }
     | none => lg2)
  | none => lg2

/-- The fold of `processSyncEntry` over a batch of raw lines
(sync service, lines 375-385); a line that fails `JSON.parse` is skipped. -/
def processSyncLines (rt : JsRt) (agentId : Str) (lg : SyncLedger)
    (lines : List (Option JVal)) : SyncLedger :=
  lines.foldl (fun acc l =>
    match l with
    | some e => processSyncEntry rt agentId acc e
    | none => acc) lg

/-- The persisted checkpoint map `processedFiles` (path → processed line
count). -/
def lookupCp (m : List (Str × Nat)) (p : Str) : Nat :=
  (((m.find? (fun e => e.1 == p)).map Prod.snd).getD 0)

/-- Update one checkpoint entry (replace in place or append). -/
def setCp (m : List (Str × Nat)) (p : Str) (n : Nat) : List (Str × Nat) :=
  match m with
  | [] => [(p, n)]
  | e :: t => if e.1 == p then (p, n) :: t else e :: setCp t p n

/-- One session file as the sync pass sees it: its path, its non-blank
lines after the `JSON.parse` attempt, and whether `readFileSync`
succeeded. -/
structure SyncFile where
  path : Str
  lines : List (Option JVal)
  readOk : Bool

/-- The whole mutable world of the sync service: the in-memory
`syncState.processedFiles`, the durable `sync-state.json` contents, and
the remote ledger. -/
structure SyncWorld where
  mem : List (Str × Nat)
  durable : List (Str × Nat)
  ledger : SyncLedger

/-- Embeds `saveSyncState` (sync service, lines 110-120): the durable write may
fail, in which case the error is logged and swallowed — the in-memory
state is untouched either way. -/
def saveSyncState (writeOk : Bool) (w : SyncWorld) : SyncWorld :=
  if writeOk then { w with durable := w.mem } else w

/-- One iteration of the file loop of `syncSessionFiles`
(sync service, lines 359-392). -/
def syncFileStep (rt : JsRt) (agentId : Str) (writeOk : Bool)
    (w : SyncWorld) (f : SyncFile) : SyncWorld :=
  if !f.readOk then w
  else
    let last := lookupCp w.mem f.path
    if f.lines.length ≤ last then w
    else
      let ledger := processSyncLines rt agentId w.ledger (f.lines.drop last)
      saveSyncState writeOk
        { mem := setCp w.mem f.path f.lines.length, durable := w.durable, ledger := ledger }

/-- Embeds `syncSessionFiles` (sync service, lines 336-396) over the
already-listed directory (the `.jsonl`/`.deleted`/`.reset` filter, the
sort, and the legacy `processedLines` migration are I/O and state-format
concerns abstracted into the given file list). -/
def syncSessionFiles (rt : JsRt) (agentId : Str) (writeOk : Bool)
    (w : SyncWorld) (files : List SyncFile) : SyncWorld :=
  files.foldl (syncFileStep rt agentId writeOk) w

/-! ## Journal route (`src/app/api/journal/route.ts`) -/

/-- The `\w` class of JS regexes. -/
def isWordChar (c : Char) : Bool := c.isAlpha || c.isDigit || c = '_'

/-- Embeds `getTextContent` (journal route, lines 98-105): a bare string, or the
first `text` block of a content array.  A truthy non-string `text` value
would crash the JS callers downstream and is modelled as empty. -/
def getTextContent (content : Option JVal) : Str :=
  match content with
  | some (JVal.jstr s) => s
  | some (JVal.jarr xs) =>
    match xs.find? (fun c => isStrEq (jget c (strOf (r"type"))) "text") with
    | some t =>
      match jget t (strOf (r"text")) with
      | some (JVal.jstr s) => s
      | _ => []
    | none => []
  | _ => []

/-- Match of `/^(\/[\w.\-]+){3,}/`: the number of leading `/segment`
groups, each a slash followed by a maximal nonempty run of `[\w.\-]`
characters (fuelled structural recursion; the fuel is always ample). -/
def slashUnitsF : Nat → Str → Nat
  | 0, _ => 0
  | _ + 1, [] => 0
  | fuel + 1, c :: t =>
    if c = '/' then
      let run := t.takeWhile (fun ch => isWordChar ch || ch = '.' || ch = '-')
      if run.isEmpty then 0 else 1 + slashUnitsF fuel (t.drop run.length)
    else 0

/-- Leading `/segment` group count of a string. -/
def slashUnits (s : Str) : Nat := slashUnitsF s.length s

/-- Embeds `kw` followed by at least one whitespace character (`^kw\s+`). -/
def startsKwWs (kw : String) (l : Str) : Bool :=
  (strOf kw).isPrefixOf l &&
    (match l.drop kw.data.length with
     | c :: _ => isJsWs c
     | [] => false)

/-- After a maximal whitespace run (at least one character), a character
satisfying `p` (`\s+[class]`). -/
def wsPlusThenClass (p : Char → Bool) : Str → Bool
  | [] => false
  | c :: t =>
    isJsWs c &&
      (let rest := t.dropWhile isJsWs
       match rest with
       | d :: _ => p d
       | [] => false)

/-- A line starting with two whitespace characters (`^\s{2,}` as a test). -/
def startsTwoWs : Str → Bool
  | c :: d :: _ => isJsWs c && isJsWs d
  | _ => false

/-- Embeds `/^['"]use (client|server)['"];/` as a test. -/
def useClientServerTest (l : Str) : Bool :=
  match l with
  | q :: rest =>
    (q = '\'' || q = dq) &&
      ((strOf (r"use client")).isPrefixOf rest &&
          (match rest.drop 10 with
           | q2 :: ';' :: _ => q2 = '\'' || q2 = dq
           | _ => false) ||
        (strOf (r"use server")).isPrefixOf rest &&
          (match rest.drop 10 with
           | q2 :: ';' :: _ => q2 = '\'' || q2 = dq
           | _ => false))
  | [] => false

/-- Embeds `looksLikeCodeOrFileContent` (journal route, lines 184-203).  The
final indentation-ratio test `indented / lines.length > 0.3` is embedded
as the exact cross-multiplied comparison. -/
def looksLikeCodeOrFileContent (text : Str) : Bool :=
  let trimmed := jsTrim text
  if useClientServerTest trimmed then true
  else if (strOf (r"import")).isPrefixOf trimmed &&
      wsPlusThenClass (fun c => c = '\x7b' || c.isAlpha) (trimmed.drop 6) then true
  else if startsKwWs (r"export") trimmed then true
  else if startsKwWs (r"const") trimmed || startsKwWs (r"let") trimmed ||
      startsKwWs (r"var") trimmed || startsKwWs (r"function") trimmed ||
      startsKwWs (r"class") trimmed || startsKwWs (r"interface") trimmed ||
      startsKwWs (r"type") trimmed then true
  else if (match trimmed with
           | '<' :: c :: _ => c.isAlpha
           | _ => false) then true
  else if (match trimmed with
           | '\x7b' :: t => (match t.dropWhile isJsWs with
                             | c :: _ => c == dq
                             | [] => false)
           | _ => false) then true
  else if (match trimmed with
           | '[' :: t => (match t.dropWhile isJsWs with
                          | c :: _ => c == '\x7b'
                          | [] => false)
           | _ => false) then true
  else if slashUnits trimmed ≥ 3 && (splitCh '\n' trimmed).length > 2 then true
  else
    let lines := splitCh '\n' trimmed
    if lines.length > 3 then
      let indented := (lines.filter startsTwoWs).length
      10 * indented > 3 * lines.length
    else false

/-- The error categories of the journal route's `RealError`. -/
inductive ErrCat where
  | rateLimit
  | buildError
  | fileError
  | httpError
  | other
deriving DecidableEq

/-- A detected real error: a human summary plus a category tag. -/
structure RealError where
  summary : Str
  category : ErrCat

/-- First match of `/\b5\d{2}\b/`: a `5` and two digits delimited by word
boundaries, scanning with the previous character's word-ness. -/
def scan5xx (prevWord : Bool) : Str → Option Str
  | [] => none
  | c :: t =>
    if !prevWord && c = '5' &&
        (match t with
         | d1 :: d2 :: rest =>
           d1.isDigit && d2.isDigit &&
             (match rest with
              | [] => true
              | x :: _ => !isWordChar x)
         | _ => false) then
      some (c :: t.take 2)
    else scan5xx (isWordChar c) t

/-- Embeds `/^error[:\s]/i` as a test on the (already trimmed) first line. -/
def errorPrefixTest (l : Str) : Bool :=
  (jsLower (l.take 5)) = strOf (r"error") && l.length ≥ 6 &&
    (match l.drop 5 with
     | c :: _ => c = ':' || isJsWs c
     | [] => false)

/-- First capture of `/['"]([^'"]+)['"]/`: a nonempty run of non-quote
characters between two (independently) single or double quotes. -/
def scanAnyQuoteCapture : Str → Option Str
  | [] => none
  | c :: t =>
    if c = '\'' || c = dq then
      let cap := t.takeWhile (fun ch => ch ≠ '\'' && ch ≠ dq)
      if !cap.isEmpty && cap.length < t.length then some cap
      else scanAnyQuoteCapture t
    else scanAnyQuoteCapture t

/-- First capture of `/exit code[:\s]*(\d+)/i`, scanning the lowercased
text: the literal, a maximal run of colons/whitespace, then a nonempty
digit run. -/
def scanExitCodeCapture : Str → Option Str
  | [] => none
  | c :: t =>
    if (strOf (r"exit code")).isPrefixOf (c :: t) then
      let rest := (c :: t).drop 9
      let rest2 := rest.dropWhile (fun ch => ch = ':' || isJsWs ch)
      let cap := rest2.takeWhile Char.isDigit
      if !cap.isEmpty then some cap else scanExitCodeCapture t
    else scanExitCodeCapture t

/-- Embeds `/[1-9]\d*/.test` on a digit string. -/
def hasNonZeroDigit (s : Str) : Bool := s.any (fun c => c.isDigit && c ≠ '0')

/-- Embeds `extractRealError` (journal route, lines 211-262).  The unused
`toolName` parameter of the source is omitted. -/
def extractRealError (text : Str) : Option RealError :=
  if looksLikeCodeOrFileContent text then none
  else
    let lower := jsLower text
    let firstLine := jsTrim ((splitCh '\n' text).headD [])
    if jsIncludes lower (strOf (r"429")) || jsIncludes lower (strOf (r"rate limit")) ||
        jsIncludes lower (strOf (r"too many requests")) then
      some ⟨strOf (r"Hit API rate limit (429) — resolved after retry"), ErrCat.rateLimit⟩
    else if (scan5xx false firstLine).isSome &&
        (jsIncludes lower (strOf (r"internal server")) || jsIncludes lower (strOf (r"server error"))) then
      some ⟨strOf (r"Server error (") ++ ((scan5xx false firstLine).getD (strOf (r"undefined"))) ++
        strOf (r") encountered"), ErrCat.httpError⟩
    else if jsIncludes lower (strOf (r"build failed")) || jsIncludes lower (strOf (r"compilation failed")) ||
        jsIncludes lower (strOf (r"module not found")) || jsIncludes lower (strOf (r"syntaxerror")) ||
        jsIncludes lower (strOf (r"typeerror:")) || jsIncludes lower (strOf (r"cannot find module")) then
      let errorLine := ((splitCh '\n' text).find? (fun l =>
        jsIncludes (jsLower l) (strOf (r"error")) && !looksLikeCodeOrFileContent l)).getD firstLine
      some ⟨strOf (r"Build error: ") ++ jsTrim (errorLine.take 100), ErrCat.buildError⟩
    else if jsIncludes lower (strOf (r"enoent")) ||
        (jsIncludes lower (strOf (r"no such file")) && jsIncludes lower (strOf (r"error"))) then
      let target :=
        match scanAnyQuoteCapture text with
        | some cap => (splitCh '/' cap).getLastD []
        | none => strOf (r"file")
      some ⟨strOf (r"File not found: ") ++ target, ErrCat.fileError⟩
    else if jsIncludes lower (strOf (r"permission denied")) || jsIncludes lower (strOf (r"eacces")) then
      some ⟨strOf (r"Permission denied error"), ErrCat.fileError⟩
    else if errorPrefixTest firstLine && firstLine.length < 200 && !looksLikeCodeOrFileContent text then
      some ⟨firstLine.take 100, ErrCat.other⟩
    else if jsIncludes lower (strOf (r"exit code")) &&
        hasNonZeroDigit ((scanExitCodeCapture lower).getD []) then
      some ⟨strOf (r"Command failed (") ++ firstLine.take 80 ++ strOf (r")"), ErrCat.other⟩
    else none

/-- Embeds `label.replace(/[-_]/g, ' ')`. -/
def mapDashUnderscore (s : Str) : Str :=
  s.map (fun c => if c = '-' || c = '_' then ' ' else c)

/-- First-match deletion of `/\bv\d+$/i` (with `bdry`) or `/v\d+$/i`
(without): scan for a `v`/`V` that is followed only by at least one digit
up to the end (and, when `bdry` is set, preceded by a non-word character
or the string start), and delete from there. -/
def stripTrailVAux (bdry : Bool) (prevWord : Bool) : Str → Str
  | [] => []
  | c :: t =>
    if (c == 'v' || c == 'V') && (!bdry || !prevWord) && !t.isEmpty && t.all Char.isDigit then []
    else c :: stripTrailVAux bdry (isWordChar c) t

/-- Embeds `labelToReadable` (journal route, lines 119-124). -/
def labelToReadable (label : Str) : Str :=
  jsTrim (stripTrailVAux true false (mapDashUnderscore label))

/-- Embeds `text.search(/[.!]\s|$/)`: index of the first `.`/`!` followed by a
whitespace character, else the string length (where `$` matches). -/
def sentenceEndIdx : Str → Nat
  | [] => 0
  | c :: t =>
    if (c == '.' || c == '!') && (match t with | d :: _ => isJsWs d | [] => false) then 0
    else 1 + sentenceEndIdx t

/-- Embeds `replace(/^\[Subagent Task\]:\s*/i, '')`. -/
def stripSubagentTag (s : Str) : Str :=
  if jsLower (s.take 16) == strOf (r"[subagent task]:") then (s.drop 16).dropWhile isJsWs
  else s

/-- The word, dash, or slash character class of the tilde-path regex. -/
def isPathSlashChar (c : Char) : Bool := isWordChar c || c = '-' || c = '/'

/-- Length of a match of the tilde-path pattern (whitespace, `at`,
whitespace, `~/`, a run of word/dash/slash characters, an optional dot,
trailing whitespace) anchored at the start of `s`; `none` when it does
not match here. -/
def matchAtTilde (s : Str) : Option Nat :=
  let w1 := s.takeWhile isJsWs
  if w1.isEmpty then none
  else
    let s1 := s.drop w1.length
    if (strOf (r"at")).isPrefixOf s1 then
      let s2 := s1.drop 2
      let w2 := s2.takeWhile isJsWs
      if w2.isEmpty then none
      else
        let s3 := s2.drop w2.length
        if (strOf (r"~/")).isPrefixOf s3 then
          let s4 := s3.drop 2
          let body := s4.takeWhile isPathSlashChar
          if body.isEmpty then none
          else
            let s5 := s4.drop body.length
            let dot : Nat := match s5 with | '.' :: _ => 1 | _ => 0
            let w3 := (s5.drop dot).takeWhile isJsWs
            some (w1.length + 2 + w2.length + 2 + body.length + dot + w3.length)
        else none
    else none

/-- Global replace of the `~-path` pattern by a single space (fuelled
scan; the fuel is always ample since a match consumes at least one
character). -/
def replaceAtTildeF : Nat → Str → Str
  | 0, s => s
  | _ + 1, [] => []
  | fuel + 1, c :: t =>
    match matchAtTilde (c :: t) with
    | some m => ' ' :: replaceAtTildeF fuel ((c :: t).drop m)
    | none => c :: replaceAtTildeF fuel t

/-- The global tilde-path replacement of `cleanTaskSummary` (line 138). -/
def replaceAtTilde (s : Str) : Str := replaceAtTildeF s.length s

/-- Embeds `replace(/\s{2,}/g, ' ')`: collapse whitespace runs of length at
least two into one space (fuelled scan). -/
def collapseWsF : Nat → Str → Str
  | 0, s => s
  | _ + 1, [] => []
  | fuel + 1, c :: t =>
    if isJsWs c && (match t with | d :: _ => isJsWs d | [] => false) then
      ' ' :: collapseWsF fuel ((c :: t).dropWhile isJsWs)
    else c :: collapseWsF fuel t

/-- Embeds `replace(/\s{2,}/g, ' ')`. -/
def collapseWs (s : Str) : Str := collapseWsF s.length s

/-- Embeds `replace(/\.\s*$/, '')`: delete from the first dot that is followed
only by whitespace up to the end. -/
def stripTrailingDot : Str → Str
  | [] => []
  | c :: t => if c = '.' && t.all isJsWs then [] else c :: stripTrailingDot t

/-- The ordered imperative-to-past map of `cleanTaskSummary`
(journal route, lines 143-158). -/
def imperativeMap : List (String × String) :=
  [(r"Add", r"Added"), (r"Refactor", r"Refactored"), (r"Replace", r"Replaced"),
   (r"Make", r"Made"), (r"Build", r"Built"), (r"Create", r"Created"),
   (r"Fix", r"Fixed"), (r"Update", r"Updated"), (r"Implement", r"Implemented"),
   (r"Remove", r"Removed"), (r"Connect", r"Connected"), (r"Rebuild", r"Rebuilt"),
   (r"Completely rebuild", r"Completely rebuilt"), (r"Refine", r"Refined")]

/-- The first matching imperative prefix is replaced and the loop breaks. -/
def applyImperative : List (String × String) → Str → Str
  | [], text => text
  | (imp, past) :: rest, text =>
    if (strOf imp ++ [ ' ' ]).isPrefixOf text then (strOf past) ++ text.drop imp.data.length
    else applyImperative rest text

/-- Embeds `cleanTaskSummary` (journal route, lines 127-170). -/
def cleanTaskSummary (taskLine : Str) : Str :=
  let text0 := jsTrim (stripSubagentTag taskLine)
  let e := sentenceEndIdx text0
  let text1 := if 0 < e ∧ (e : Int) < (text0.length : Int) - 1 then text0.take (e + 1) else text0
  let text2 := jsTrim (collapseWs (replaceAtTilde text1))
  let text3 := stripTrailingDot text2
  let text4 := applyImperative imperativeMap text3
  if text4.length > 120 then text4.take 117 ++ [ '…' ] else text4

/-- First capture of `/Label:\s*(\S+)/`. -/
def scanLabelCapture : Str → Option Str
  | [] => none
  | c :: t =>
    if (strOf (r"Label:")).isPrefixOf (c :: t) then
      let rest := (c :: t).drop 6
      let r2 := rest.dropWhile isJsWs
      if !r2.isEmpty then some (r2.takeWhile (fun ch => !isJsWs ch))
      else scanLabelCapture t
    else scanLabelCapture t

/-- First capture of `/\[Subagent Task\]:\s*([^\n]+)/`, with the regex's
greedy-`\s*`-then-backtrack behaviour when only whitespace follows. -/
def scanTaskCapture : Str → Option Str
  | [] => none
  | c :: t =>
    if (strOf (r"[Subagent Task]:")).isPrefixOf (c :: t) then
      let rest := (c :: t).drop 16
      let w := rest.takeWhile isJsWs
      let r2 := rest.drop w.length
      if !r2.isEmpty then some (r2.takeWhile (fun ch => ch ≠ '\n'))
      else
        match w.reverse.dropWhile (fun ch => ch == '\n') with
        | [] => scanTaskCapture t
        | ch :: _ => some [ch]
    else scanTaskCapture t

/-- The result of `extractSubagentInfo` (journal route, lines 172-179). -/
structure SubagentInfo where
  label : Option Str
  task : Option Str

/-- Embeds `extractSubagentInfo`. -/
def extractSubagentInfo (text : Str) : SubagentInfo :=
  ⟨scanLabelCapture text, (scanTaskCapture text).map jsTrim⟩

/-- Embeds `TAG_KEYWORDS` (journal route, lines 266-287), in source order. -/
def TAG_KEYWORDS : List (String × List String) :=
  [(r"dashboard", [r"dashboard", r"agent-dashboard"]),
   (r"sidebar", [r"sidebar"]),
   (r"navigation", [r"navigation", r"nav bar", r"top tab"]),
   (r"sse", [r"sse", r"server-sent", r"eventsource", r"real-time", r"realtime"]),
   (r"skills", [r"skill", r"skills"]),
   (r"cron", [r"cron", r"schedule"]),
   (r"journal", [r"journal", r"daily brief", r"narrative"]),
   (r"memory", [r"memory", r"MEMORY.md"]),
   (r"chat", [r"chat", r"quickchat"]),
   (r"costs", [r"cost", r"token", r"billing"]),
   (r"tasks", [r"task", r"kanban"]),
   (r"subagents", [r"subagent", r"spawn"]),
   (r"api", [r"api", r"route", r"endpoint"]),
   (r"database", [r"database", r"sqlite", r"sql"]),
   (r"git", [r"git", r"commit", r"push"]),
   (r"browser", [r"browser", r"scrape"]),
   (r"whatsapp", [r"whatsapp"]),
   (r"discord", [r"discord"]),
   (r"telegram", [r"telegram"]),
   (r"ui", [r"redesign", r"layout", r"styling", r"css", r"tailwind"])]

/-- Insertion-ordered string set: `add`. -/
def strSetAdd (s : List Str) (x : Str) : List Str :=
  if s.any (fun y => y == x) then s else s ++ [x]

/-- Insertion-ordered string set: `delete`. -/
def strSetDel (s : List Str) (x : Str) : List Str :=
  s.filter (fun y => !(y == x))

/-- Code-unit lexicographic order of JS default `Array.sort` (the tags
are ASCII, where code units and code points agree). -/
def strLe : Str → Str → Bool
  | [], _ => true
  | _ :: _, [] => false
  | a :: as, b :: bs => if a < b then true else if b < a then false else strLe as bs

/-- Insert into an ascending-sorted string list. -/
def insertAscStr (x : Str) : List Str → List Str
  | [] => [x]
  | y :: ys => if strLe x y then x :: y :: ys else y :: insertAscStr x ys

/-- Embeds `Array.from(tags).sort()`. -/
def sortStrs (l : List Str) : List Str :=
  l.foldl (fun acc x => insertAscStr x acc) []

/-- Embeds `extractTags` (journal route, lines 289-321). -/
def extractTags (allText : Str) (toolsUsed : List JVal) (taskLabels : List Str) : List Str :=
  let lower := jsLower allText
  let tags := TAG_KEYWORDS.foldl (fun tg p =>
    if p.2.any (fun k => jsIncludes lower (strOf k)) then strSetAdd tg (strOf p.1) else tg) []
  let tags := taskLabels.foldl (fun tg label =>
    let parts := splitWs (jsTrim (stripTrailVAux false false (mapDashUnderscore label)))
    parts.foldl (fun tg2 part =>
      if part.length > 2 then strSetAdd tg2 (jsLower part) else tg2) tg) tags
  let tags := if setHas toolsUsed (jstr (strOf (r"browser"))) ||
      setHas toolsUsed (jstr (strOf (r"web_fetch"))) ||
      setHas toolsUsed (jstr (strOf (r"web_search"))) then strSetAdd tags (strOf (r"browser")) else tags
  let tags := if setHas toolsUsed (jstr (strOf (r"exec"))) then strSetAdd tags (strOf (r"dev")) else tags
  let tags := if setHas toolsUsed (jstr (strOf (r"tts"))) then strSetAdd tags (strOf (r"voice")) else tags
  let tags := if setHas toolsUsed (jstr (strOf (r"nodes"))) then strSetAdd tags (strOf (r"nodes")) else tags
  let tags := if setHas toolsUsed (jstr (strOf (r"canvas"))) then strSetAdd tags (strOf (r"canvas")) else tags
  let tags := ([r"the", r"and", r"for", r"with", r"from", r"dev"] : List String).foldl
    (fun tg g => strSetDel tg (strOf g)) tags
  (sortStrs tags).take 12

/-- Embeds `errorPatterns[cat] = (errorPatterns[cat] || 0) + 1` on the
insertion-ordered record. -/
def bumpCat (m : List (ErrCat × Nat)) (c : ErrCat) : List (ErrCat × Nat) :=
  match m with
  | [] => [(c, 1)]
  | e :: t => if e.1 = c then (e.1, e.2 + 1) :: t else e :: bumpCat t c

/-- Lookup of an error-category count. -/
def lookupCat (m : List (ErrCat × Nat)) (c : ErrCat) : Option Nat :=
  (m.find? (fun e => e.1 == c)).map Prod.snd

/-- The per-category struggle template (journal route, lines 453-459);
the `|| template-fallback` default of line 460 is unreachable because the
record's keys are exactly the five categories. -/
def strugDesc (c : ErrCat) (n : Nat) : Str :=
  match c with
  | ErrCat.rateLimit =>
    strOf (r"Hit rate limits ") ++ (Nat.repr n).data ++ strOf (r" times — required multiple retries")
  | ErrCat.buildError =>
    strOf (r"Build/compilation failed ") ++ (Nat.repr n).data ++ strOf (r" times before succeeding")
  | ErrCat.fileError =>
    strOf (r"File-related errors encountered ") ++ (Nat.repr n).data ++ strOf (r" times")
  | ErrCat.httpError =>
    strOf (r"Server errors occurred ") ++ (Nat.repr n).data ++ strOf (r" times")
  | ErrCat.other =>
    strOf (r"Encountered repeated failures (") ++ (Nat.repr n).data ++ strOf (r" occurrences)")

/-- The struggle list built from the error-pattern record
(journal route, lines 450-462). -/
def strugglesOf (m : List (ErrCat × Nat)) : List Str :=
  m.filterMap (fun e => if e.2 ≥ 3 then some (strugDesc e.1 e.2) else none)

/-- The accumulator of `parseSessionsForDate`'s event loop
(journal route, lines 326-343 and 352-359). -/
structure JAcc where
  accomplishments : List Str
  problems : List Str
  toolsUsed : List JVal
  allTextParts : List Str
  activeTimestamps : List Int
  taskLabels : List Str
  totalCost : ℤ
  totalTokens : ℤ
  subagentsSpawned : Nat
  errorPatterns : List (ErrCat × Nat)
  seenAccomplishments : List Str
  seenProblems : List Str
  lastToolName : Option JVal

/-- The empty accumulator. -/
def initJAcc : JAcc := ⟨[], [], [], [], [], [], 0, 0, 0, [], [], [], none⟩

/-- The user-role branch of the journal loop (journal route, lines
372-400): subagent detection, accomplishment extraction, text
collection. -/
def procJournalUser (msg : JVal) (acc : JAcc) : JAcc :=
  if isStrEq (jget msg (strOf (r"role"))) "user" then
    let text := getTextContent (jget msg (strOf (r"content")))
    let acc' :=
      if jsIncludes text (strOf (r"[Subagent Task]")) ||
          jsIncludes text (strOf (r"[Subagent Context]")) then
        let acc2 := { acc with subagentsSpawned := acc.subagentsSpawned + 1 }
        let info := extractSubagentInfo text
        let acc3 :=
          match info.label with
          | some l => { acc2 with taskLabels := acc2.taskLabels ++ [l] }
          | none => acc2
        let labelBranch : JAcc :=
          match info.label with
          | some l =>
            if !l.isEmpty then
              let summary := strOf (r"Worked on ") ++ labelToReadable l
              if acc3.seenAccomplishments.any (fun y => y == summary) then acc3
              else { acc3 with
                seenAccomplishments := acc3.seenAccomplishments ++ [summary],
                accomplishments := acc3.accomplishments ++ [summary] }
            else acc3
          | none => acc3
        match info.task with
        | some t =>
          if !t.isEmpty then
            let summary := cleanTaskSummary t
            if acc3.seenAccomplishments.any (fun y => y == summary) then acc3
            else { acc3 with
              seenAccomplishments := acc3.seenAccomplishments ++ [summary],
              accomplishments := acc3.accomplishments ++ [summary] }
          else labelBranch
        | none => labelBranch
      else acc
    { acc' with allTextParts := acc'.allTextParts ++ [text.take 500] }
  else acc

/-- One content block of the assistant branch (journal route, lines
409-417): tool tracking and text collection. -/
def procAssistBlock (a : JAcc) (c : JVal) : JAcc :=
  let a1 :=
    if isStrEq (jget c (strOf (r"type"))) "toolCall" && truthy (jget c (strOf (r"name"))) then
      { a with
        toolsUsed := setAdd a.toolsUsed ((jget c (strOf (r"name"))).getD JVal.jnull),
        lastToolName := jget c (strOf (r"name")) }
    else a
  if isStrEq (jget c (strOf (r"type"))) "text" && truthy (jget c (strOf (r"text"))) then
    match asStr (jget c (strOf (r"text"))) with
    | some s => { a1 with allTextParts := a1.allTextParts ++ [s.take 300] }
    | none => a1
  else a1

/-- The assistant-role branch of the journal loop (journal route, lines
402-418): usage accumulation and the content-block fold. -/
def procJournalAssist (msg : JVal) (acc : JAcc) : JAcc :=
  if isStrEq (jget msg (strOf (r"role"))) "assistant" then
    let usage := jget msg (strOf (r"usage"))
    let tot := (usage.bind (fun u => jget u (strOf (r"cost")))).bind
      (fun cv => jget cv (strOf (r"total")))
    let acc4 :=
      if truthy tot then
        { acc with
          totalCost := acc.totalCost + numOr0 (tot.getD JVal.jnull),
          totalTokens := acc.totalTokens +
            numOr0 (jsOr (usage.bind (fun u => jget u (strOf (r"totalTokens")))) (JVal.jnum 0)) }
      else acc
    let contentArr :=
      match jget msg (strOf (r"content")) with
      | some (JVal.jarr xs) => xs
      | _ => []
    contentArr.foldl procAssistBlock acc4
  else acc

/-- The toolResult-role branch of the journal loop (journal route, lines
421-434): error classification with an unconditional category bump. -/
def procJournalToolResult (msg : JVal) (acc : JAcc) : JAcc :=
  if isStrEq (jget msg (strOf (r"role"))) "toolResult" then
    let text := getTextContent (jget msg (strOf (r"content")))
    let accR :=
      match extractRealError text with
      | some re =>
        let accP := { acc with errorPatterns := bumpCat acc.errorPatterns re.category }
        if accP.seenProblems.any (fun y => y == re.summary) then accP
        else { accP with
          seenProblems := accP.seenProblems ++ [re.summary],
          problems := accP.problems ++ [strOf (r"**Problem:** ") ++ re.summary] }
      | none => acc
    { accR with lastToolName := none }
  else acc

/-- The role-dispatched message handling of `parseSessionsForDate`
(journal route, lines 369-434): the three role branches in source
order. -/
def procJournalMsg (msg : JVal) (acc : JAcc) : JAcc :=
  procJournalToolResult msg (procJournalAssist msg (procJournalUser msg acc))

/-- One line of the journal loop (journal route, lines 361-447): date
filtering, the message branch, and the session-level error branch (where
the category count bumps only for an unseen summary, unlike the
tool-result branch).  A truthy non-string `timestamp` would crash the JS
`.slice` call and is modelled as a skip. -/
def procJournalLine (rt : JsRt) (targetDate : Str) (acc : JAcc) (line : Option JVal) : JAcc :=
  match line with
  | none => acc
  | some entry =>
    match jget entry (strOf (r"timestamp")) with
    | some (JVal.jstr ts) =>
      if ts.isEmpty then acc
      else if !(ts.take 10 == targetDate) then acc
      else
        let acc0 := { acc with activeTimestamps := acc.activeTimestamps ++ [rt.getTimeS ts] }
        let acc1 :=
          if isStrEq (jget entry (strOf (r"type"))) "message" &&
              truthy (jget entry (strOf (r"message"))) then
            procJournalMsg ((jget entry (strOf (r"message"))).getD JVal.jnull) acc0
          else acc0
        if isStrEq (jget entry (strOf (r"type"))) "error" then
          let errText? : Option Str :=
            match jget entry (strOf (r"error")) with
            | some (JVal.jstr s) => some s
            | some v => some (rt.stringify v)
            | none => none
          match errText? with
          | some errText =>
            match extractRealError errText with
            | some re =>
              if acc1.seenProblems.any (fun y => y == re.summary) then acc1
              else { acc1 with
                seenProblems := acc1.seenProblems ++ [re.summary],
                problems := acc1.problems ++ [strOf (r"**Problem:** ") ++ re.summary],
                errorPatterns := bumpCat acc1.errorPatterns re.category }
            | none => acc1
          | none => acc1
        else acc1
    | some _ => acc
    | none => acc

/-- The file/line fold of `parseSessionsForDate` (journal route, lines
350-448); `lastToolName` is declared per file and so resets at each file
boundary. -/
def journalFold (rt : JsRt) (targetDate : Str) (files : List (List (Option JVal))) : JAcc :=
  files.foldl (fun acc file =>
    file.foldl (procJournalLine rt targetDate) { acc with lastToolName := none }) initJAcc

/-- Ascending stable insertion for the numeric sort of
`activeTimestamps.sort((a, b) => a - b)`. -/
def insertAscInt (x : Int) : List Int → List Int
  | [] => [x]
  | y :: ys => if x < y then x :: y :: ys else y :: insertAscInt x ys

/-- The numeric ascending sort. -/
def sortIntsAsc (l : List Int) : List Int :=
  l.foldl (fun acc x => insertAscInt x acc) []

/-- Embeds `Math.round(d / 60000)` for the non-negative millisecond span `d`,
as the exact integer formula. -/
def jsRoundMs (d : ℤ) : ℤ := (2 * d + 60000) / 120000

/-- Embeds `Math.round(totalCost * 10000) / 10000` on the integral cost model
(the rounding is the identity and the division exact). -/
def roundTo4 (c : ℤ) : ℤ := c * 10000 / 10000

/-- The journal stats block. -/
structure JStats where
  totalTokens : ℤ
  totalCost : ℤ
  subagentsSpawned : Nat
  activeTimeMinutes : ℤ
deriving DecidableEq

/-- A `NarrativeJournal` of the journal route; `narrative` is optional
and absent (`none`) unless a caller sets it. -/
structure NarrativeJournal where
  date : Str
  dayLabel : Str
  narrative : Option Str
  tags : List Str
  accomplishments : List Str
  problems : List Str
  struggles : List Str
  stats : JStats
deriving DecidableEq

/-- Embeds `parseSessionsForDate` (journal route, lines 325-492) over the
already-read session files (the missing-directory early return produces
the same empty journal and is subsumed by an empty file list). -/
def parseSessionsForDate (rt : JsRt) (targetDate : Str)
    (files : List (List (Option JVal))) : NarrativeJournal :=
  let acc := journalFold rt targetDate files
  let struggles := strugglesOf acc.errorPatterns
  let accomplishments :=
    if acc.accomplishments.isEmpty && !acc.allTextParts.isEmpty then
      [strOf (r"Worked on various tasks throughout the day")]
    else acc.accomplishments
  let activeMinutes : ℤ :=
    if acc.activeTimestamps.length > 1 then
      let sorted := sortIntsAsc acc.activeTimestamps
      jsRoundMs (sorted.getLastD 0 - sorted.headD 0)
    else 0
  let tags := extractTags (List.intercalate [ ' ' ] acc.allTextParts) acc.toolsUsed acc.taskLabels
  { date := targetDate
    dayLabel := rt.dayLabel targetDate
    narrative := none
    tags := tags
    accomplishments := accomplishments
    problems := acc.problems.take 10
    struggles := struggles
    stats :=
      { totalTokens := acc.totalTokens
        totalCost := roundTo4 acc.totalCost
        subagentsSpawned := acc.subagentsSpawned
        activeTimeMinutes := activeMinutes } }

/-- Embeds `isJournalEntryEmpty` (journal route, lines 494-500). -/
def isJournalEntryEmpty (j : NarrativeJournal) : Bool :=
  j.accomplishments.isEmpty && j.problems.isEmpty && j.struggles.isEmpty

/-- Embeds `emptyJournal` (journal route, lines 502-517): no `narrative` field,
all lists empty, zero stats. -/
def emptyJournal (rt : JsRt) (targetDate : Str) : NarrativeJournal :=
  { date := targetDate
    dayLabel := rt.dayLabel targetDate
    narrative := none
    tags := []
    accomplishments := []
    problems := []
    struggles := []
    stats := { totalTokens := 0, totalCost := 0, subagentsSpawned := 0, activeTimeMinutes := 0 } }

/-! ## Activity route (`src/app/api/activity/route.ts`) -/

/-- Template-literal interpolation of a possibly-undefined field
(JS renders `undefined` as the string `undefined`). -/
def jsTmpl (rt : JsRt) (v : Option JVal) : Str :=
  match v with
  | some x => jsToStr rt x
  | none => strOf (r"undefined")

/-- The text extraction of the activity route
(`Array.isArray ? find text block : String(content || '')`); a truthy
non-string `text` block would crash the `.slice` callers and is modelled
as empty. -/
def activityText (rt : JsRt) (content : Option JVal) : Str :=
  match content with
  | some (JVal.jarr xs) =>
    match xs.find? (fun c => isStrEq (jget c (strOf (r"type"))) "text") with
    | some t =>
      match jget t (strOf (r"text")) with
      | some (JVal.jstr s) => s
      | _ => []
    | none => []
  | _ => jsToStr rt (jsOr content (JVal.jstr []))

/-- Embeds `text.slice(0, n) + (text.length > n ? '...' : '')`. -/
def sliceEllipsis (n : Nat) (text : Str) : Str :=
  text.take n ++ (if text.length > n then strOf (r"...") else [])

/-- One item of the activity stream.  Fields that some branch stores as a
raw parsed value are typed `JVal`. -/
structure ActivityItem where
  id : JVal
  agent : JVal
  action : Str
  details : JVal
  level : Str
  created_at : Option JVal
  session : Option Str

/-- The items one parsed entry contributes (activity route, lines
104-217), in push order.  Branches whose JS code would crash on an
absent or non-string `entry.id` are guarded by that string. -/
def entryItems (rt : JsRt) (sessionId : Str) (entry : JVal) : List ActivityItem :=
  let ts := jget entry (strOf (r"timestamp"))
  let sessionItems :=
    if isStrEq (jget entry (strOf (r"type"))) "session" then
      match asStr (jget entry (strOf (r"id"))) with
      | some idS =>
        [{ id := JVal.jstr idS
           agent := JVal.jstr (strOf (r"main"))
           action := strOf (r"Session started")
           details := JVal.jstr (strOf (r"Session ") ++ idS.take 8)
           level := strOf (r"info")
           created_at := ts
           session := some sessionId }]
      | none => []
    else []
  let modelItems :=
    if isStrEq (jget entry (strOf (r"type"))) "model_change" then
      [{ id := (jget entry (strOf (r"id"))).getD JVal.jnull
         agent := JVal.jstr (strOf (r"main"))
         action := strOf (r"Model changed")
         details := JVal.jstr (jsTmpl rt (jget entry (strOf (r"provider"))) ++ [ '/' ] ++
           jsTmpl rt (jget entry (strOf (r"modelId"))))
         level := strOf (r"info")
         created_at := ts
         session := some sessionId }]
    else []
  let msgItems :=
    if isStrEq (jget entry (strOf (r"type"))) "message" &&
        truthy (jget entry (strOf (r"message"))) then
      let msg := (jget entry (strOf (r"message"))).getD JVal.jnull
      let userItems :=
        if isStrEq (jget msg (strOf (r"role"))) "user" then
          let text := activityText rt (jget msg (strOf (r"content")))
          [{ id := (jget entry (strOf (r"id"))).getD JVal.jnull
             agent := JVal.jstr (strOf (r"user"))
             action := strOf (r"User message")
             details := JVal.jstr (sliceEllipsis 200 text)
             level := strOf (r"info")
             created_at := ts
             session := some sessionId }]
        else []
      let assistantItems :=
        if isStrEq (jget msg (strOf (r"role"))) "assistant" then
          let toolCalls :=
            match jget msg (strOf (r"content")) with
            | some (JVal.jarr xs) => xs.filter (fun c => isStrEq (jget c (strOf (r"type"))) "toolCall")
            | _ => []
          let main :=
            if !toolCalls.isEmpty then
              toolCalls.map (fun tc =>
                { id := JVal.jstr (jsTmpl rt (jget entry (strOf (r"id"))) ++ [ '-' ] ++
                    jsTmpl rt (jget tc (strOf (r"id"))))
                  agent := JVal.jstr (strOf (r"main"))
                  action := strOf (r"Tool: ") ++ jsTmpl rt (jget tc (strOf (r"name")))
                  details :=
                    (match jget tc (strOf (r"arguments")) with
                     | some (JVal.jstr s) => JVal.jstr (s.take 150)
                     | v => JVal.jstr ((rt.stringify (jsOr v (JVal.jobj []))).take 150))
                  level := strOf (r"info")
                  created_at := ts
                  session := some sessionId })
            else
              let text := activityText rt (jget msg (strOf (r"content")))
              if !(jsTrim text).isEmpty then
                [{ id := (jget entry (strOf (r"id"))).getD JVal.jnull
                   agent := JVal.jstr (strOf (r"main"))
                   action := strOf (r"Assistant response")
                   details := JVal.jstr (sliceEllipsis 200 text)
                   level := strOf (r"success")
                   created_at := ts
                   session := some sessionId }]
              else []
          let costTot := ((jget msg (strOf (r"usage"))).bind
            (fun u => jget u (strOf (r"cost")))).bind (fun cv => jget cv (strOf (r"total")))
          let costItems :=
            if truthy costTot then
              [{ id := JVal.jstr (jsTmpl rt (jget entry (strOf (r"id"))) ++ strOf (r"-cost"))
                 agent := JVal.jstr (strOf (r"main"))
                 action := strOf (r"API cost")
                 details := JVal.jstr ([ '$' ] ++ rt.toFixed4 (costTot.getD JVal.jnull) ++
                   strOf (r" (") ++
                   jsToStr rt (jsOr ((jget msg (strOf (r"usage"))).bind
                     (fun u => jget u (strOf (r"totalTokens")))) (JVal.jnum 0)) ++
                   strOf (r" tokens) - ") ++ jsTmpl rt (jget msg (strOf (r"model"))))
                 level := strOf (r"info")
                 created_at := ts
                 session := some sessionId }]
            else []
          main ++ costItems
        else []
      let toolResultItems :=
        if isStrEq (jget msg (strOf (r"role"))) "toolResult" then
          let text := activityText rt (jget msg (strOf (r"content")))
          [{ id := (jget entry (strOf (r"id"))).getD JVal.jnull
             agent := JVal.jstr (strOf (r"main"))
             action := strOf (r"Result: ") ++
               jsToStr rt (jsOr (jget msg (strOf (r"toolName"))) (JVal.jstr (strOf (r"tool"))))
             details := JVal.jstr (sliceEllipsis 150 text)
             level := if jsIncludes (jsLower text) (strOf (r"error")) then strOf (r"error")
               else strOf (r"info")
             created_at := ts
             session := some sessionId }]
        else []
      userItems ++ assistantItems ++ toolResultItems
    else []
  sessionItems ++ modelItems ++ msgItems

/-- One session file as the activity route sees it. -/
structure AFile where
  name : Str
  mtime : Int
  lines : List (Option JVal)
  readOk : Bool

/-- The items contributed by one session file (activity route, lines
96-219). -/
def fileActivityItems (rt : JsRt) (f : AFile) : List ActivityItem :=
  if !f.readOk then []
  else
    let sessionId := (replaceOnce (strOf (r".jsonl")) [] f.name).take 8
    f.lines.foldl (fun acc l =>
      match l with
      | some entry => acc ++ entryItems rt sessionId entry
      | none => acc) []

/-- The chat-log items (activity route, lines 222-236). -/
def chatActivityItems (rt : JsRt) (chat : List JVal) : List ActivityItem :=
  chat.map (fun c =>
    { id := JVal.jstr (strOf (r"chat-") ++ jsTmpl rt (jget c (strOf (r"timestamp"))))
      agent := jsOr (jget c (strOf (r"agent"))) (JVal.jstr (strOf (r"user")))
      action := strOf (r"Chat message")
      details := (jget c (strOf (r"message"))).getD JVal.jnull
      level := strOf (r"info")
      created_at := jget c (strOf (r"timestamp"))
      session := none })

/-- The ten most recently modified session files
(activity route, lines 90-94). -/
def topTenByMtime (files : List AFile) : List AFile :=
  (stableSortDescBy (fun a b => a.mtime > b.mtime) files).take 10

/-- Embeds `parseSessionActivity` (activity route, lines 84-241): only the ten
most recently modified files are parsed; the chat log is appended; the
result is sorted by `created_at` descending and truncated to `limit`.
An item with no `created_at` gives `NaN` in the JS comparator; the
embedding dates the `null` value instead (no claim depends on it). -/
def parseSessionActivity (rt : JsRt) (files : List AFile) (chat : List JVal)
    (limit : Nat) : List ActivityItem :=
  let items := (topTenByMtime files).foldl (fun acc f => acc ++ fileActivityItems rt f) []
  let items := items ++ chatActivityItems rt chat
  (stableSortDescBy (fun a b =>
    rt.getTimeV (a.created_at.getD JVal.jnull) > rt.getTimeV (b.created_at.getD JVal.jnull))
    items).take limit

/-! ## Concrete instantiation and inputs used by the evaluations -/

/-- A simple concrete instantiation of the runtime primitives, for
evaluating the embedding at concrete inputs. -/
def rtC : JsRt :=
  { jsonParse := fun _ => none
    getTimeS := fun s => (s.length : Int)
    getTimeV := fun v => match v with | JVal.jstr s => (s.length : Int) | _ => 0
    toIsoV := fun v => match v with | JVal.jstr s => s | _ => []
    nowIso := strOf (r"NOW")
    numToStr := fun _ => strOf (r"num")
    toFixed4 := fun _ => strOf (r"f4")
    dayLabel := fun s => s
    arrToStr := fun _ => strOf (r"arr")
    stringify := fun _ => strOf (r"json") }

/-- The agent id used by the sync-service evaluations. -/
def agC : Str := strOf (r"AG")

/-- The spec scenario's assistant line, parameterised by the toolCall
name (the spec writes `spawn`; the code matches `sessions_spawn`). -/
def scenSpawnLine (toolName : String) : JVal :=
  JVal.jobj [(strOf (r"type"), JVal.jstr (strOf (r"message"))),
    (strOf (r"message"), JVal.jobj [
      (strOf (r"role"), JVal.jstr (strOf (r"assistant"))),
      (strOf (r"content"), JVal.jarr [JVal.jobj [
        (strOf (r"type"), JVal.jstr (strOf (r"toolCall"))),
        (strOf (r"name"), JVal.jstr toolName.data),
        (strOf (r"arguments"), JVal.jobj [
          (strOf (r"label"), JVal.jstr (strOf (r"fix-bug"))),
          (strOf (r"task"), JVal.jstr (strOf (r"Fix the login bug"))),
          (strOf (r"model"), JVal.jstr (strOf (r"m1")))])]])])]

/-- The completion text of the spec scenario. -/
def scenCompletionText : Str :=
  strOf (r"[System Message] A subagent task ") ++ [dq] ++ strOf (r"fix-bug") ++ [dq] ++
    strOf (r" just completed successfully.")

/-- The spec scenario's user (completion) line. -/
def scenCompletionLine : JVal :=
  JVal.jobj [(strOf (r"type"), JVal.jstr (strOf (r"message"))),
    (strOf (r"message"), JVal.jobj [
      (strOf (r"role"), JVal.jstr (strOf (r"user"))),
      (strOf (r"content"), JVal.jarr [JVal.jobj [
        (strOf (r"type"), JVal.jstr (strOf (r"text"))),
        (strOf (r"text"), JVal.jstr scenCompletionText)]])])]

/-- The scenario file name. -/
def scenFileName : Str := strOf (r"f.jsonl")

/-- The scenario lines with the toolCall named `sessions_spawn` (the name
the code actually matches). -/
def scenLinesGood : List (Option JVal) :=
  [some (scenSpawnLine (r"sessions_spawn")), some scenCompletionLine]

/-- The scenario lines exactly as the spec writes them (`name: "spawn"`). -/
def scenLinesSpec : List (Option JVal) :=
  [some (scenSpawnLine (r"spawn")), some scenCompletionLine]

/-- The task produced from `scenLinesGood` under `rtC`. -/
def scenTask : AgentTask :=
  { id := strOf (r"f.jsonl-fix-bug")
    label := JVal.jstr (strOf (r"fix-bug"))
    description := JVal.jstr (strOf (r"Fix the login bug"))
    model := JVal.jstr (strOf (r"m1"))
    status := strOf (r"done")
    spawned_at := strOf (r"NOW")
    completed_at := some (JVal.jstr (strOf (r"NOW")))
    duration := none
    sessionId := strOf (r"f") }

/-- A sync-service spawn entry (assistant message with a `sessions_spawn`
toolCall). -/
def syncSpawnEntry : JVal :=
  JVal.jobj [(strOf (r"type"), JVal.jstr (strOf (r"message"))),
    (strOf (r"message"), JVal.jobj [
      (strOf (r"role"), JVal.jstr (strOf (r"assistant"))),
      (strOf (r"content"), JVal.jarr [JVal.jobj [
        (strOf (r"type"), JVal.jstr (strOf (r"toolCall"))),
        (strOf (r"name"), JVal.jstr (strOf (r"sessions_spawn"))),
        (strOf (r"arguments"), JVal.jobj [
          (strOf (r"label"), JVal.jstr (strOf (r"t1")))])]])])]

/-- The batch replayed in the idempotency counterexample. -/
def replayLines : List (Option JVal) := [some syncSpawnEntry]

/-- Path, world and file of the shrunk-file evaluation: the stored
checkpoint is 5, the file now has a single (spawn) line. -/
def pC3 : Str := strOf (r"p.jsonl")

/-- World with checkpoint 5 for `pC3`. -/
def wC3 : SyncWorld := ⟨[(pC3, 5)], [(pC3, 5)], ⟨[], []⟩⟩

/-- The shrunk file: one spawn line, readable. -/
def fC3 : SyncFile := ⟨pC3, [some syncSpawnEntry], true⟩

/-- Path, world and file of the failed-durable-write evaluation. -/
def pC4 : Str := strOf (r"q.jsonl")

/-- Fresh world (no checkpoints, empty ledger). -/
def wC4 : SyncWorld := ⟨[], [], ⟨[], []⟩⟩

/-- A file with one new (malformed) line. -/
def fC4 : SyncFile := ⟨pC4, [none], true⟩

/-- The target date of the journal evaluations. -/
def dateC : Str := strOf (r"2025-01-01")

/-- A user message on the target date whose text produces no
accomplishment. -/
def helloLine : JVal :=
  JVal.jobj [(strOf (r"timestamp"), JVal.jstr (strOf (r"2025-01-01T10:00:00.000Z"))),
    (strOf (r"type"), JVal.jstr (strOf (r"message"))),
    (strOf (r"message"), JVal.jobj [
      (strOf (r"role"), JVal.jstr (strOf (r"user"))),
      (strOf (r"content"), JVal.jarr [JVal.jobj [
        (strOf (r"type"), JVal.jstr (strOf (r"text"))),
        (strOf (r"text"), JVal.jstr (strOf (r"hello")))]])])]

/-- A line with no timestamp: it never qualifies for any date. -/
def noTsLine : JVal := JVal.jobj [(strOf (r"k"), JVal.jnum 1)]

/-- A tool result hitting the rate limiter, on the target date. -/
def rlLine : JVal :=
  JVal.jobj [(strOf (r"timestamp"), JVal.jstr (strOf (r"2025-01-01T00:00:01.000Z"))),
    (strOf (r"type"), JVal.jstr (strOf (r"message"))),
    (strOf (r"message"), JVal.jobj [
      (strOf (r"role"), JVal.jstr (strOf (r"toolResult"))),
      (strOf (r"content"), JVal.jarr [JVal.jobj [
        (strOf (r"type"), JVal.jstr (strOf (r"text"))),
        (strOf (r"text"), JVal.jstr (strOf (r"rate limit exceeded")))]])])]

/-- A day with three rate-limit occurrences. -/
def day3files : List (List (Option JVal)) := [[some rlLine, some rlLine, some rlLine]]

/-- A day with two rate-limit occurrences. -/
def day2files : List (List (Option JVal)) := [[some rlLine, some rlLine]]

/-- A session-started entry for the activity evaluation. -/
def sessLineA : JVal :=
  JVal.jobj [(strOf (r"type"), JVal.jstr (strOf (r"session"))),
    (strOf (r"id"), JVal.jstr (strOf (r"abc12345xyz"))),
    (strOf (r"timestamp"), JVal.jstr (strOf (r"T1")))]

/-- The activity session file holding `sessLineA`. -/
def fA : AFile := ⟨strOf (r"a.jsonl"), 0, [some sessLineA], true⟩

/-- The activity item `fA` yields. -/
def itemA : ActivityItem :=
  { id := JVal.jstr (strOf (r"abc12345xyz"))
    agent := JVal.jstr (strOf (r"main"))
    action := strOf (r"Session started")
    details := JVal.jstr (strOf (r"Session abc12345"))
    level := strOf (r"info")
    created_at := some (JVal.jstr (strOf (r"T1")))
    session := some (strOf (r"a")) }

/-- The spawn-branch labels one raw line contributes, mirroring the
spawn branch of the tasks-route loop (lines 69-90): the guards of
`procTasksLine` followed by the per-block spawn detection. -/
def spawnLabelsOfLine (rt : JsRt) (line : Option JVal) : List JVal :=
  match line with
  | none => []
  | some entry =>
    if !isStrEq (jget entry (strOf (r"type"))) "message" then []
    else
      match jget entry (strOf (r"message")) with
      | none => []
      | some msg =>
        if !truthyV msg then []
        else if isStrEq (jget msg (strOf (r"role"))) "assistant" then
          match jget msg (strOf (r"content")) with
          | some (JVal.jarr blocks) =>
            blocks.filterMap (fun block =>
              if isSpawnBlock block then some (spawnLabelOf rt block) else none)
          | _ => []
        else []

/-- The Boolean qualification test of one journal line: it parsed, has a
truthy string timestamp, and that timestamp's date is the target date
(the skip conditions of `procJournalLine`). -/
def qualifiesLine (targetDate : Str) (l : Option JVal) : Bool :=
  match l with
  | none => false
  | some entry =>
    match jget entry (strOf (r"timestamp")) with
    | some (JVal.jstr ts) => !ts.isEmpty && ts.take 10 == targetDate
    | _ => false

/-- The literal `import React from 'react'` of the discrimination claim. -/
def importReactPrefix : Str :=
  strOf (r"import React from ") ++ '\'' :: strOf (r"react") ++ ['\'']

/-! ## Theorems -/

theorem mem_saveSyncState (ok : Bool) (w : SyncWorld) : (saveSyncState ok w).mem = w.mem := by
  cases ok <;> rfl

theorem durable_saveSyncState_false (w : SyncWorld) : (saveSyncState false w).durable = w.durable :=
  rfl

theorem lookupCp_cons (e : Str × Nat) (t : List (Str × Nat)) (x : Str) :
    lookupCp (e :: t) x = if e.1 == x then e.2 else lookupCp t x := by
  by_cases h : e.1 == x <;> simp [lookupCp, List.find?, h]

theorem lookupCp_setCp (m : List (Str × Nat)) (p x : Str) (n : Nat) :
    lookupCp (setCp m p n) x = if p = x then n else lookupCp m x := by
  induction m with
  | nil =>
    show lookupCp [(p, n)] x = _
    rw [lookupCp_cons]
    by_cases h : p = x
    · simp [h]
    · simp [h, beq_eq_false_iff_ne.2 h, lookupCp]
  | cons e t ih =>
    show lookupCp (if e.1 == p then (p, n) :: t else e :: setCp t p n) x = _
    by_cases hep : e.1 == p
    · rw [if_pos hep, lookupCp_cons, lookupCp_cons]
      have hep' : e.1 = p := beq_iff_eq.1 hep
      by_cases hpx : p = x
      · simp [hpx]
      · have h2 : (e.1 == x) = false := beq_eq_false_iff_ne.2 (hep' ▸ hpx)
        simp [beq_eq_false_iff_ne.2 hpx, h2, hpx]
    · rw [if_neg hep, lookupCp_cons, ih, lookupCp_cons]
      by_cases hex : e.1 == x
      · have hex' : e.1 = x := beq_iff_eq.1 hex
        have hpx : ¬ p = x := fun h => hep (beq_iff_eq.2 (hex'.trans h.symm))
        simp [hex, hpx]
      · simp [hex]

theorem lookupCp_syncFileStep_le (rt : JsRt) (a : Str) (ok : Bool) (w : SyncWorld)
    (f : SyncFile) (x : Str) :
    lookupCp w.mem x ≤ lookupCp (syncFileStep rt a ok w f).mem x := by
  by_cases hr : f.readOk
  · by_cases hle : f.lines.length ≤ lookupCp w.mem f.path
    · simp [syncFileStep, hr, hle]
    · simp only [syncFileStep, hr, Bool.not_true, Bool.false_eq_true, if_false, if_neg hle,
        mem_saveSyncState]
      rw [lookupCp_setCp]
      split
      · next hpx => subst hpx; omega
      · exact le_refl _
  · simp [syncFileStep, hr]

/-- C5.  For every source file path, a sync pass never decreases the
stored checkpoint: each pass either leaves `processedFiles[path]`
unchanged or replaces it with a strictly larger line count. -/
theorem C5_checkpoint_monotone (rt : JsRt) (a : Str) (ok : Bool) (w : SyncWorld)
    (files : List SyncFile) (x : Str) :
    lookupCp w.mem x ≤ lookupCp (syncSessionFiles rt a ok w files).mem x := by
  induction files generalizing w with
  | nil => simp [syncSessionFiles]
  | cons f fs ih =>
    have h1 := lookupCp_syncFileStep_le rt a ok w f x
    have h2 := ih (syncFileStep rt a ok w f)
    simpa [syncSessionFiles] using le_trans h1 h2

/-- C3 counterexample.  A file whose line count (1) is strictly below its
stored checkpoint (5) is not reset to 0 and reprocessed: the checkpoint
stays 5 and the spawn line in the file is never folded into the ledger. -/
theorem C3_counterexample :
    lookupCp (syncSessionFiles rtC agC true wC3 [fC3]).mem pC3 = 5 ∧
    (syncSessionFiles rtC agC true wC3 [fC3]).ledger.tasks = [] :=
  ⟨rfl, rfl⟩

/-- C3 (amended).  A source file whose current line count is strictly
smaller than its stored checkpoint is skipped as having nothing new: the
pass leaves the whole world (checkpoints, durable state, ledger)
unchanged; only a path with no stored entry starts from 0. -/
theorem C3_shrunk_file_skipped (rt : JsRt) (a : Str) (ok : Bool) (w : SyncWorld)
    (f : SyncFile) (h : f.lines.length < lookupCp w.mem f.path) :
    syncSessionFiles rt a ok w [f] = w := by
  show syncFileStep rt a ok w f = w
  by_cases hr : f.readOk
  · have hle : f.lines.length ≤ lookupCp w.mem f.path := le_of_lt h
    simp [syncFileStep, hr, hle]
  · simp [syncFileStep, hr]

theorem C3_witness : syncSessionFiles rtC agC true wC3 [fC3] = wC3 :=
  C3_shrunk_file_skipped rtC agC true wC3 fC3 (by decide)

/-- C4 counterexample.  When the durable checkpoint write fails, the
in-memory checkpoint for the processed file IS advanced (here from 0 to
1) while the durable state keeps the old value — contradicting the claim
that the in-memory checkpoint is not advanced past its previous value. -/
theorem C4_counterexample :
    lookupCp wC4.mem pC4 = 0 ∧
    lookupCp (syncSessionFiles rtC agC false wC4 [fC4]).mem pC4 = 1 ∧
    (syncSessionFiles rtC agC false wC4 [fC4]).durable = [] :=
  ⟨rfl, rfl, rfl⟩

/-- C4 (amended).  `saveSyncState` swallows the write failure, so the
in-memory checkpoint is advanced to the new line count anyway; the
durable state keeps its old value, so the batch is re-processed only
after a crash and restart (from the stale durable state), not by the
still-running process. -/
theorem C4_failed_write_advances_memory (rt : JsRt) (a : Str) (w : SyncWorld) (f : SyncFile)
    (hr : f.readOk = true) (h : lookupCp w.mem f.path < f.lines.length) :
    lookupCp (syncSessionFiles rt a false w [f]).mem f.path = f.lines.length ∧
    (syncSessionFiles rt a false w [f]).durable = w.durable := by
  have hle : ¬ f.lines.length ≤ lookupCp w.mem f.path := by omega
  show lookupCp (syncFileStep rt a false w f).mem f.path = f.lines.length ∧
    (syncFileStep rt a false w f).durable = w.durable
  simp only [syncFileStep, hr, Bool.not_true, Bool.false_eq_true, if_false, if_neg hle]
  constructor
  · rw [mem_saveSyncState, lookupCp_setCp]
    simp
  · rfl

theorem C4_witness :
    lookupCp (syncSessionFiles rtC agC false wC4 [fC4]).mem pC4 = 1 ∧
    (syncSessionFiles rtC agC false wC4 [fC4]).durable = [] :=
  C4_failed_write_advances_memory rtC agC wC4 fC4 rfl (by decide)

theorem tasks_length_processSyncEntry (rt : JsRt) (a : Str) (lg : SyncLedger) (e : JVal) :
    (processSyncEntry rt a lg e).tasks.length =
      lg.tasks.length + (spawnRowOf rt a e).toList.length := by
  unfold processSyncEntry
  cases h : completionOf rt e with
  | none => simp
  | some tpl =>
    obtain ⟨n, s, c⟩ := tpl
    simp only []
    cases h2 : completionTargetIdx rt a n (lg.tasks ++ (spawnRowOf rt a e).toList) with
    | none => simp
    | some idx => simp [patchTask]

theorem costs_processSyncEntry (rt : JsRt) (a : Str) (lg : SyncLedger) (e : JVal) :
    (processSyncEntry rt a lg e).costs = lg.costs ++ (costRowOf rt a e).toList := by
  unfold processSyncEntry
  cases h : completionOf rt e with
  | none => simp
  | some tpl =>
    obtain ⟨n, s, c⟩ := tpl
    simp only []
    cases h2 : completionTargetIdx rt a n (lg.tasks ++ (spawnRowOf rt a e).toList) with
    | none => simp
    | some idx => simp

/-- C2 counterexample.  Replaying the same batch is not idempotent: the
single spawn line, folded once from the empty ledger, yields one task
row; folding the same batch a second time over the result yields two. -/
theorem C2_counterexample :
    (processSyncLines rtC agC (processSyncLines rtC agC ⟨[], []⟩ replayLines) replayLines).tasks.length = 2 ∧
    (processSyncLines rtC agC ⟨[], []⟩ replayLines).tasks.length = 1 :=
  ⟨rfl, rfl⟩

/-- C2 (amended).  The per-line processing appends blindly: an entry that
passes the spawn guard adds a task row on every processing, and an entry
that passes the usage guard adds a cost row on every processing, so
processing the same line twice adds two of each; duplicate suppression
comes only from the checkpoint preventing a replay, not from the fold. -/
theorem C2_replay_double_counts (rt : JsRt) (a : Str) (lg : SyncLedger) (e : JVal) :
    ((spawnRowOf rt a e).isSome →
      (processSyncEntry rt a (processSyncEntry rt a lg e) e).tasks.length =
        lg.tasks.length + 2) ∧
    ((costRowOf rt a e).isSome →
      (processSyncEntry rt a (processSyncEntry rt a lg e) e).costs.length =
        lg.costs.length + 2) := by
  constructor
  · intro hs
    have h1 := tasks_length_processSyncEntry rt a lg e
    have h2 := tasks_length_processSyncEntry rt a (processSyncEntry rt a lg e) e
    cases hrow : spawnRowOf rt a e with
    | none => rw [hrow] at hs; simp at hs
    | some row => rw [hrow] at h1 h2; simp at h1 h2; omega
  · intro hc
    have h1 := costs_processSyncEntry rt a lg e
    have h2 := costs_processSyncEntry rt a (processSyncEntry rt a lg e) e
    cases hrow : costRowOf rt a e with
    | none => rw [hrow] at hc; simp at hc
    | some row =>
      rw [h1] at h2
      rw [h2, hrow]
      simp

theorem C2_witness :
    (processSyncEntry rtC agC (processSyncEntry rtC agC ⟨[], []⟩ syncSpawnEntry) syncSpawnEntry).tasks.length = 2 :=
  by simpa using (C2_replay_double_counts rtC agC ⟨[], []⟩ syncSpawnEntry).1 (by rfl)

/-- C1 counterexample.  On the spec scenario exactly as written — the
toolCall block is named `spawn` — the tasks-route parser returns no task
at all (the code matches only `sessions_spawn`), so it does not return
one Task with label `fix-bug` and status done. -/
theorem C1_counterexample :
    parseSessionFiles rtC [(scenFileName, scenLinesSpec)] = [] :=
  rfl

/-- C1 (amended).  With the spawn toolCall named `sessions_spawn` (the
name the code matches), the two-line scenario yields exactly one task,
with label `fix-bug` and status `done`, for every runtime
instantiation. -/
theorem C1_scenario_one_task_done (rt : JsRt) :
    (parseSessionFiles rt [(scenFileName, scenLinesGood)]).map
      (fun t => (t.label, t.status)) =
      [(JVal.jstr (strOf (r"fix-bug")), strOf (r"done"))] :=
  rfl

theorem mem_mapSet {β : Type} (m : List (JVal × β)) (k : JVal) (v : β) (k' : JVal) (v' : β)
    (h : (k', v') ∈ mapSet m k v) : (k', v') ∈ m ∨ (k' = k ∧ v' = v) := by
  induction m with
  | nil =>
    simp [mapSet] at h
    exact Or.inr ⟨h.1, h.2⟩
  | cons e t ih =>
    simp only [mapSet] at h
    by_cases he : jkeyEq e.1 k
    · rw [if_pos he] at h
      rcases List.mem_cons.1 h with h1 | h1
      · exact Or.inr ⟨congrArg Prod.fst h1, congrArg Prod.snd h1⟩
      · exact Or.inl (List.mem_cons_of_mem _ h1)
    · rw [if_neg he] at h
      rcases List.mem_cons.1 h with h1 | h1
      · exact Or.inl (h1 ▸ List.mem_cons_self _ _)
      · rcases ih h1 with h2 | h2
        · exact Or.inl (List.mem_cons_of_mem _ h2)
        · exact Or.inr h2


theorem mem_assignChildKey (key : JVal) (m : List (JVal × SpawnRec)) (k : JVal) (sp : SpawnRec)
    (h : (k, sp) ∈ assignChildKey key m) :
    ∃ sp₀, (k, sp₀) ∈ m ∧ sp.label = sp₀.label := by
  induction m with
  | nil => simp [assignChildKey] at h
  | cons e t ih =>
    obtain ⟨k₀, sp₀⟩ := e
    simp only [assignChildKey] at h
    split at h
    · rcases List.mem_cons.1 h with h1 | h1
      · injection h1 with hk hsp
        subst hk; subst hsp
        exact ⟨sp, List.mem_cons_self _ _, rfl⟩
      · rcases ih h1 with ⟨sp₁, hm, hl⟩
        exact ⟨sp₁, List.mem_cons_of_mem _ hm, hl⟩
    · rcases List.mem_cons.1 h with h1 | h1
      · injection h1 with hk hsp
        subst hk
        exact ⟨sp₀, List.mem_cons_self _ _, by rw [hsp]⟩
      · exact ⟨sp, List.mem_cons_of_mem _ h1, rfl⟩

theorem mem_procSpawnResultBlock (rt : JsRt) (sp0 : List (JVal × SpawnRec)) (c : JVal)
    (k : JVal) (sp : SpawnRec) (h : (k, sp) ∈ procSpawnResultBlock rt sp0 c) :
    ∃ sp₀, (k, sp₀) ∈ sp0 ∧ sp.label = sp₀.label := by
  unfold procSpawnResultBlock at h
  split at h
  · split at h
    · split at h
      · split at h
        · exact mem_assignChildKey _ _ _ _ h
        · exact ⟨sp, h, rfl⟩
      · exact ⟨sp, h, rfl⟩
    · exact ⟨sp, h, rfl⟩
  · exact ⟨sp, h, rfl⟩

theorem mem_procSpawnResultBlocks (rt : JsRt) (blocks : List JVal)
    (sp0 : List (JVal × SpawnRec)) (k : JVal) (sp : SpawnRec)
    (h : (k, sp) ∈ procSpawnResultBlocks rt blocks sp0) :
    ∃ sp₀, (k, sp₀) ∈ sp0 ∧ sp.label = sp₀.label := by
  induction blocks generalizing sp0 with
  | nil => exact ⟨sp, h, rfl⟩
  | cons c cs ih =>
    rcases ih (procSpawnResultBlock rt sp0 c) h with ⟨sp₁, hm, hl⟩
    rcases mem_procSpawnResultBlock rt sp0 c k sp₁ hm with ⟨sp₂, hm2, hl2⟩
    exact ⟨sp₂, hm2, hl.trans hl2⟩

theorem mem_procSpawnBlock (rt : JsRt) (eTs mTs : Option JVal) (sp0 : List (JVal × SpawnRec))
    (block : JVal) (k : JVal) (sp : SpawnRec)
    (h : (k, sp) ∈ procSpawnBlock rt eTs mTs sp0 block) :
    (k, sp) ∈ sp0 ∨ (isSpawnBlock block = true ∧ k = spawnLabelOf rt block ∧ sp.label = k) := by
  unfold procSpawnBlock at h
  split at h
  · next hguard =>
    rcases mem_mapSet _ _ _ _ _ h with h1 | ⟨hk, hsp⟩
    · exact Or.inl h1
    · exact Or.inr ⟨hguard, hk, by rw [hsp, hk]⟩
  · exact Or.inl h

theorem mem_procSpawnBlocks (rt : JsRt) (eTs mTs : Option JVal) (blocks : List JVal)
    (sp0 : List (JVal × SpawnRec)) (k : JVal) (sp : SpawnRec)
    (h : (k, sp) ∈ procSpawnBlocks rt eTs mTs blocks sp0) :
    (k, sp) ∈ sp0 ∨
      (sp.label = k ∧ ∃ b ∈ blocks, isSpawnBlock b = true ∧ k = spawnLabelOf rt b) := by
  induction blocks generalizing sp0 with
  | nil => exact Or.inl h
  | cons b bs ih =>
    rcases ih (procSpawnBlock rt eTs mTs sp0 b) h with h1 | ⟨hl, b', hb', hg, hk⟩
    · rcases mem_procSpawnBlock rt eTs mTs sp0 b k sp h1 with h2 | ⟨hg, hk, hl⟩
      · exact Or.inl h2
      · exact Or.inr ⟨hl, b, List.mem_cons_self _ _, hg, hk⟩
    · exact Or.inr ⟨hl, b', List.mem_cons_of_mem _ hb', hg, hk⟩

theorem spawns_procTasksAssist (rt : JsRt) (entry msg : JVal) (acc : TasksAcc)
    (k : JVal) (sp : SpawnRec) (h : (k, sp) ∈ (procTasksAssist rt entry msg acc).spawns) :
    (k, sp) ∈ acc.spawns ∨
      (sp.label = k ∧ isStrEq (jget msg (strOf (r"role"))) "assistant" = true ∧
        ∃ blocks, jget msg (strOf (r"content")) = some (JVal.jarr blocks) ∧
          ∃ b ∈ blocks, isSpawnBlock b = true ∧ k = spawnLabelOf rt b) := by
  unfold procTasksAssist at h
  split at h
  · next ha =>
    split at h
    · next blocks hc =>
      dsimp only at h
      rcases mem_procSpawnBlocks _ _ _ _ _ _ _ h with h1 | ⟨hl, b, hb, hg, hk⟩
      · exact Or.inl h1
      · exact Or.inr ⟨hl, ha, blocks, hc, b, hb, hg, hk⟩
    · next => exact Or.inl h
  · exact Or.inl h

theorem spawns_procTasksResult (rt : JsRt) (msg : JVal) (acc : TasksAcc)
    (k : JVal) (sp : SpawnRec) (h : (k, sp) ∈ (procTasksResult rt msg acc).spawns) :
    ∃ sp₀, (k, sp₀) ∈ acc.spawns ∧ sp.label = sp₀.label := by
  unfold procTasksResult at h
  split at h
  · dsimp only at h
    exact mem_procSpawnResultBlocks _ _ _ _ _ h
  · exact ⟨sp, h, rfl⟩

theorem spawns_procTasksCompl (rt : JsRt) (entry msg : JVal) (acc : TasksAcc) :
    (procTasksCompl rt entry msg acc).spawns = acc.spawns := by
  unfold procTasksCompl
  split
  · split <;> rfl
  · rfl

theorem spawns_procTasksLine (rt : JsRt) (acc : TasksAcc) (line : Option JVal)
    (k : JVal) (sp : SpawnRec) (h : (k, sp) ∈ (procTasksLine rt acc line).spawns) :
    (∃ sp₀, (k, sp₀) ∈ acc.spawns ∧ sp.label = sp₀.label) ∨
      (sp.label = k ∧ k ∈ spawnLabelsOfLine rt line) := by
  cases line with
  | none => exact Or.inl ⟨sp, h, rfl⟩
  | some entry =>
    by_cases ht : isStrEq (jget entry (strOf (r"type"))) "message"
    case neg =>
      simp only [procTasksLine, ht, Bool.not_false, if_true] at h
      exact Or.inl ⟨sp, h, rfl⟩
    case pos =>
    cases hm : jget entry (strOf (r"message")) with
    | none =>
      simp only [procTasksLine, ht, hm, Bool.not_true, Bool.false_eq_true, if_false] at h
      exact Or.inl ⟨sp, h, rfl⟩
    | some msg =>
      by_cases htr : truthyV msg
      case neg =>
        simp only [procTasksLine, ht, hm, htr, Bool.not_true, Bool.false_eq_true, if_false,
          Bool.not_false, if_true] at h
        exact Or.inl ⟨sp, h, rfl⟩
      case pos =>
        simp only [procTasksLine, ht, hm, htr, Bool.not_true, Bool.false_eq_true, if_false] at h
        rw [spawns_procTasksCompl] at h
        rcases spawns_procTasksResult _ _ _ _ _ h with ⟨sp₁, hm1, hl1⟩
        rcases spawns_procTasksAssist _ _ _ _ _ _ hm1 with h2 | ⟨hl2, ha, blocks, hc, b, hb, hg, hk⟩
        · exact Or.inl ⟨sp₁, h2, hl1⟩
        · refine Or.inr ⟨hl1.trans hl2, ?_⟩
          simp only [spawnLabelsOfLine, ht, hm, htr, ha, hc, Bool.not_true, Bool.false_eq_true,
            if_false, if_true, Bool.not_false]
          exact List.mem_filterMap.2 ⟨b, hb, by simp [hg, hk]⟩

theorem spawns_foldTasks (rt : JsRt) (lines : List (Option JVal)) (acc : TasksAcc)
    (k : JVal) (sp : SpawnRec)
    (h : (k, sp) ∈ (lines.foldl (procTasksLine rt) acc).spawns) :
    (∃ sp₀, (k, sp₀) ∈ acc.spawns ∧ sp.label = sp₀.label) ∨
      (sp.label = k ∧ ∃ l ∈ lines, k ∈ spawnLabelsOfLine rt l) := by
  induction lines generalizing acc with
  | nil => exact Or.inl ⟨sp, h, rfl⟩
  | cons l ls ih =>
    rcases ih (procTasksLine rt acc l) h with ⟨sp₀, hm, hl⟩ | ⟨hl, l', hl', hk⟩
    · rcases spawns_procTasksLine rt acc l k sp₀ hm with ⟨sp₁, hm1, hl1⟩ | ⟨hl1, hkin⟩
      · exact Or.inl ⟨sp₁, hm1, hl.trans hl1⟩
      · exact Or.inr ⟨hl.trans hl1, l, List.mem_cons_self _ _, hkin⟩
    · exact Or.inr ⟨hl, l', List.mem_cons_of_mem _ hl', hk⟩

theorem label_of_mem_buildTasks (rt : JsRt) (file : Str) (acc : TasksAcc) (t : AgentTask)
    (h : t ∈ buildTasks rt file acc) : ∃ e ∈ acc.spawns, t.label = e.2.label := by
  unfold buildTasks at h
  rcases List.mem_map.1 h with ⟨e, he, ht⟩
  exact ⟨e, he, by rw [← ht]⟩

theorem tasks_label_spawned (rt : JsRt) (file : Str) (lines : List (Option JVal)) (t : AgentTask)
    (h : t ∈ parseTasksFile rt file lines) :
    ∃ l ∈ lines, t.label ∈ spawnLabelsOfLine rt l := by
  unfold parseTasksFile at h
  rcases label_of_mem_buildTasks _ _ _ _ h with ⟨⟨k, sp⟩, he, hlab⟩
  rcases spawns_foldTasks rt lines ⟨[], []⟩ k sp he with ⟨sp₀, hm, _⟩ | ⟨hl, l, hlm, hk⟩
  · exact absurd hm (by simp)
  · exact ⟨l, hlm, by rw [hlab]; dsimp only at hl ⊢; rw [hl]; exact hk⟩

theorem mem_insertDescBy {α : Type} (gt : α → α → Bool) (x a : α) (l : List α)
    (h : a ∈ insertDescBy gt x l) : a = x ∨ a ∈ l := by
  induction l with
  | nil => simp [insertDescBy] at h; exact Or.inl h
  | cons y ys ih =>
    simp only [insertDescBy] at h
    split at h
    · rcases List.mem_cons.1 h with h1 | h1
      · exact Or.inl h1
      · exact Or.inr h1
    · rcases List.mem_cons.1 h with h1 | h1
      · exact Or.inr (h1 ▸ List.mem_cons_self _ _)
      · rcases ih h1 with h2 | h2
        · exact Or.inl h2
        · exact Or.inr (List.mem_cons_of_mem _ h2)

theorem mem_stableSortDescBy {α : Type} (gt : α → α → Bool) (l : List α) (a : α)
    (h : a ∈ stableSortDescBy gt l) : a ∈ l := by
  have aux : ∀ (xs : List α) (acc : List α),
      a ∈ xs.foldl (fun acc x => insertDescBy gt x acc) acc → a ∈ acc ∨ a ∈ xs := by
    intro xs
    induction xs with
    | nil => exact fun acc h => Or.inl h
    | cons x xt ih =>
      intro acc h
      rcases ih (insertDescBy gt x acc) h with h1 | h1
      · rcases mem_insertDescBy gt x a acc h1 with h2 | h2
        · exact Or.inr (h2 ▸ List.mem_cons_self _ _)
        · exact Or.inl h2
      · exact Or.inr (List.mem_cons_of_mem _ h1)
  rcases aux l [] h with h1 | h1
  · simp at h1
  · exact h1

/-- C8.  Every task in the tasks-route result originates in a
`sessions_spawn` toolCall of one of the session files: its label is among
the spawn labels extracted from some line, so a completion message whose
label was never spawned in that file cannot materialize a task. -/
theorem C8_no_task_without_spawn (rt : JsRt) (files : List (Str × List (Option JVal)))
    (t : AgentTask) (h : t ∈ parseSessionFiles rt files) :
    ∃ f ∈ files, ∃ l ∈ f.2, t.label ∈ spawnLabelsOfLine rt l := by
  unfold parseSessionFiles at h
  have h1 := mem_stableSortDescBy _ _ _ h
  rcases List.mem_flatten.1 h1 with ⟨lst, hlst, ht⟩
  rcases List.mem_map.1 hlst with ⟨f, hf, hfe⟩
  rcases tasks_label_spawned rt f.1 f.2 t (hfe ▸ ht) with ⟨l, hl, hmem⟩
  exact ⟨f, hf, l, hl, hmem⟩

theorem C8_witness :
    ∃ f ∈ [(scenFileName, scenLinesGood)], ∃ l ∈ f.2,
      scenTask.label ∈ spawnLabelsOfLine rtC l := by
  have heval : parseSessionFiles rtC [(scenFileName, scenLinesGood)] = [scenTask] := rfl
  exact C8_no_task_without_spawn rtC [(scenFileName, scenLinesGood)] scenTask
    (heval ▸ List.mem_singleton_self scenTask)


theorem prefix_rtrim (p l : Str) (hp : p <+: l) (c : Char) (hlast : p.getLast? = some c)
    (hc : isJsWs c = false) : p <+: rtrim l := by
  obtain ⟨t, rfl⟩ := hp
  unfold rtrim
  rw [List.reverse_append, List.dropWhile_append]
  split
  · have hrev : p.reverse.head? = some c := by rw [List.head?_reverse]; exact hlast
    cases hpr : p.reverse with
    | nil => rw [hpr] at hrev; simp at hrev
    | cons c0 rest =>
      rw [hpr] at hrev
      have hc0 : c0 = c := by simpa using hrev
      have hcw : isJsWs c0 = false := by rw [hc0]; exact hc
      rw [List.dropWhile_cons, hcw]
      simp only [Bool.false_eq_true, if_false]
      rw [← hpr, List.reverse_reverse]
  · rw [List.reverse_append, List.reverse_reverse]
    exact List.prefix_append _ _

/-- C9.  Every string beginning with `import React from 'react'` is
rejected by the code-or-file-content filter, so the error classifier
returns no error on it, whatever the rest of the string contains. -/
theorem C9_import_react_never_error (s : Str) (h : importReactPrefix <+: s) :
    extractRealError s = none := by
  obtain ⟨u, rfl⟩ := h
  have hpre : importReactPrefix <+: jsTrim (importReactPrefix ++ u) := by
    unfold jsTrim
    have h1 : ltrim (importReactPrefix ++ u) = importReactPrefix ++ u := rfl
    rw [h1]
    exact prefix_rtrim _ _ (List.prefix_append _ _) '\'' rfl (by decide)
  obtain ⟨v, hv⟩ := hpre
  have hl : looksLikeCodeOrFileContent (importReactPrefix ++ u) = true := by
    unfold looksLikeCodeOrFileContent
    rw [← hv]
    rfl
  simp only [extractRealError, hl, if_true]

theorem C9_witness :
    extractRealError (importReactPrefix ++ strOf (r"; throw new Error(oops)")) = none :=
  C9_import_react_never_error _ ⟨strOf (r"; throw new Error(oops)"), rfl⟩

theorem procJournalLine_skip (rt : JsRt) (d : Str) (acc : JAcc) (l : Option JVal)
    (h : qualifiesLine d l = false) : procJournalLine rt d acc l = acc := by
  cases l with
  | none => rfl
  | some entry =>
    simp only [qualifiesLine] at h
    simp only [procJournalLine]
    cases hts : jget entry (strOf (r"timestamp")) with
    | none => rfl
    | some v =>
      rw [hts] at h
      cases v with
      | jstr ts =>
        by_cases he : ts.isEmpty
        · simp [he]
        · simp only [he, Bool.not_false, Bool.true_and] at h
          simp [he, h]
      | jnull => rfl
      | jbool b => rfl
      | jnum q => rfl
      | jarr xs => rfl
      | jobj fs => rfl

theorem journalFold_skip_lines (rt : JsRt) (d : Str) (lines : List (Option JVal)) (acc : JAcc)
    (h : ∀ l ∈ lines, qualifiesLine d l = false) :
    lines.foldl (procJournalLine rt d) acc = acc := by
  induction lines generalizing acc with
  | nil => rfl
  | cons l ls ih =>
    rw [List.foldl_cons, procJournalLine_skip rt d acc l (h l (List.mem_cons_self _ _))]
    exact ih acc (fun l' hl' => h l' (List.mem_cons_of_mem _ hl'))

theorem journalFold_empty (rt : JsRt) (d : Str) (files : List (List (Option JVal)))
    (h : ∀ file ∈ files, ∀ l ∈ file, qualifiesLine d l = false) :
    journalFold rt d files = initJAcc := by
  unfold journalFold
  induction files with
  | nil => rfl
  | cons f fs ih =>
    rw [List.foldl_cons]
    have h1 : ({ initJAcc with lastToolName := none } : JAcc) = initJAcc := rfl
    rw [h1, journalFold_skip_lines rt d f initJAcc (h f (List.mem_cons_self _ _))]
    exact ih (fun f' hf' => h f' (List.mem_cons_of_mem _ hf'))

/-- C6 (amended).  A date with zero qualifying events yields exactly
`emptyJournal`: every list field empty, zero stats, and no narrative
field at all (`none`) — not the empty string, and no placeholder. -/
theorem C6_no_events_empty_journal (rt : JsRt) (d : Str) (files : List (List (Option JVal)))
    (h : ∀ file ∈ files, ∀ l ∈ file, qualifiesLine d l = false) :
    parseSessionsForDate rt d files = emptyJournal rt d := by
  unfold parseSessionsForDate
  rw [journalFold_empty rt d files h]
  rfl

theorem C6_witness :
    parseSessionsForDate rtC dateC [[some noTsLine]] = emptyJournal rtC dateC :=
  C6_no_events_empty_journal rtC dateC [[some noTsLine]] (by decide)

/-- C6 counterexample.  A day whose only event is an ordinary user
message (`hello`) produces no real accomplishment, yet the synthesizer
substitutes the placeholder sentence — contradicting the claim that it
never does. -/
theorem C6_counterexample :
    (parseSessionsForDate rtC dateC [[some helloLine]]).accomplishments =
      [strOf (r"Worked on various tasks throughout the day")] :=
  rfl

theorem ep_procAssistBlock (a : JAcc) (c : JVal) :
    (procAssistBlock a c).errorPatterns = a.errorPatterns := by
  unfold procAssistBlock
  dsimp only
  split
  · split
    · split <;> rfl
    · split <;> rfl
  · split <;> rfl

theorem ep_foldAssistBlocks (blocks : List JVal) (a : JAcc) :
    (blocks.foldl procAssistBlock a).errorPatterns = a.errorPatterns := by
  induction blocks generalizing a with
  | nil => rfl
  | cons c cs ih => rw [List.foldl_cons, ih, ep_procAssistBlock]

theorem ep_procJournalUser (msg : JVal) (acc : JAcc) :
    (procJournalUser msg acc).errorPatterns = acc.errorPatterns := by
  unfold procJournalUser
  dsimp only
  repeat' split
  all_goals rfl

theorem ep_procJournalAssist (msg : JVal) (acc : JAcc) :
    (procJournalAssist msg acc).errorPatterns = acc.errorPatterns := by
  unfold procJournalAssist
  dsimp only
  split
  · rw [ep_foldAssistBlocks]
    split <;> rfl
  · rfl

theorem ep_procJournalToolResult (msg : JVal) (acc : JAcc) :
    (procJournalToolResult msg acc).errorPatterns = acc.errorPatterns ∨
      ∃ c, (procJournalToolResult msg acc).errorPatterns = bumpCat acc.errorPatterns c := by
  unfold procJournalToolResult
  dsimp only
  split
  · split
    · next re _ =>
      refine Or.inr ⟨re.category, ?_⟩
      split <;> rfl
    · exact Or.inl rfl
  · exact Or.inl rfl

theorem ep_procJournalLine (rt : JsRt) (d : Str) (acc : JAcc) (l : Option JVal) :
    (procJournalLine rt d acc l).errorPatterns = acc.errorPatterns ∨
      ∃ c, (procJournalLine rt d acc l).errorPatterns = bumpCat acc.errorPatterns c := by
  cases l with
  | none => exact Or.inl rfl
  | some entry =>
    simp only [procJournalLine]
    cases hts : jget entry (strOf (r"timestamp")) with
    | none => exact Or.inl rfl
    | some v =>
      cases v with
      | jstr ts =>
        by_cases he : ts.isEmpty
        · simp only [he, if_true]; exact Or.inl (by trivial)
        · by_cases hd : (ts.take 10 == d)
          · simp only [he, hd, Bool.not_true, Bool.false_eq_true, if_false]
            -- acc0 then message branch then error branch
            have hmsg : ∀ a : JAcc, (if isStrEq (jget entry (strOf (r"type"))) "message" &&
                truthy (jget entry (strOf (r"message"))) then
                  procJournalMsg ((jget entry (strOf (r"message"))).getD JVal.jnull) a
                else a).errorPatterns = a.errorPatterns ∨
                ∃ c, (if isStrEq (jget entry (strOf (r"type"))) "message" &&
                    truthy (jget entry (strOf (r"message"))) then
                      procJournalMsg ((jget entry (strOf (r"message"))).getD JVal.jnull) a
                    else a).errorPatterns = bumpCat a.errorPatterns c := by
              intro a
              split
              · unfold procJournalMsg
                rcases ep_procJournalToolResult
                    ((jget entry (strOf (r"message"))).getD JVal.jnull)
                    (procJournalAssist ((jget entry (strOf (r"message"))).getD JVal.jnull)
                      (procJournalUser ((jget entry (strOf (r"message"))).getD JVal.jnull) a)) with
                  h1 | ⟨c, h1⟩
                · rw [h1, ep_procJournalAssist, ep_procJournalUser]
                  exact Or.inl rfl
                · rw [h1, ep_procJournalAssist, ep_procJournalUser]
                  exact Or.inr ⟨c, rfl⟩
              · exact Or.inl rfl
            by_cases herr : isStrEq (jget entry (strOf (r"type"))) "error"
            · have hmsgF : isStrEq (jget entry (strOf (r"type"))) "message" = false := by
                unfold isStrEq at herr ⊢
                cases hjv : jget entry (strOf (r"type")) with
                | none => rfl
                | some v =>
                  rw [hjv] at herr
                  cases v with
                  | jstr t =>
                    have ht : t = (r"error").data := by simpa using herr
                    simp [ht]
                  | jnull => rfl
                  | jbool b => rfl
                  | jnum q => rfl
                  | jarr xs => rfl
                  | jobj fs => rfl
              simp only [herr, hmsgF, Bool.false_and, Bool.false_eq_true, if_false, if_true]
              repeat' split
              all_goals
                first
                | exact Or.inl rfl
                | exact Or.inr ⟨_, rfl⟩
            · simp only [herr, Bool.false_eq_true, if_false]
              rcases hmsg _ with h1 | ⟨c, h1⟩
              · exact Or.inl (h1.trans rfl)
              · exact Or.inr ⟨c, h1⟩
          · simp only [he, hd, Bool.not_true, Bool.false_eq_true, if_false, Bool.not_false,
              if_true]
            exact Or.inl (by trivial)
      | jnull => exact Or.inl rfl
      | jbool b => exact Or.inl rfl
      | jnum q => exact Or.inl rfl
      | jarr xs => exact Or.inl rfl
      | jobj fs => exact Or.inl rfl

theorem keys_bumpCat (m : List (ErrCat × Nat)) (c : ErrCat) :
    (bumpCat m c).map Prod.fst =
      if c ∈ m.map Prod.fst then m.map Prod.fst else m.map Prod.fst ++ [c] := by
  induction m with
  | nil => simp [bumpCat]
  | cons e t ih =>
    simp only [bumpCat]
    by_cases hec : e.1 = c
    · rw [if_pos hec]
      simp [hec]
    · rw [if_neg hec]
      simp only [List.map_cons, ih]
      by_cases hcm : c ∈ t.map Prod.fst
      · simp [hcm]
      · have hne : c ≠ e.1 := fun h => hec h.symm
        simp [hcm, hne]

theorem nodup_keys_bumpCat (m : List (ErrCat × Nat)) (c : ErrCat)
    (h : (m.map Prod.fst).Nodup) : ((bumpCat m c).map Prod.fst).Nodup := by
  rw [keys_bumpCat]
  split
  · exact h
  · next hc => simp [List.nodup_append, h, hc]

theorem nodup_ep_procJournalLine (rt : JsRt) (d : Str) (acc : JAcc) (l : Option JVal)
    (h : (acc.errorPatterns.map Prod.fst).Nodup) :
    ((procJournalLine rt d acc l).errorPatterns.map Prod.fst).Nodup := by
  rcases ep_procJournalLine rt d acc l with h1 | ⟨c, h1⟩
  · rw [h1]; exact h
  · rw [h1]; exact nodup_keys_bumpCat _ _ h

theorem nodup_ep_journalFold (rt : JsRt) (d : Str) (files : List (List (Option JVal))) :
    ((journalFold rt d files).errorPatterns.map Prod.fst).Nodup := by
  unfold journalFold
  have aux2 : ∀ (ls : List (Option JVal)) (a : JAcc), (a.errorPatterns.map Prod.fst).Nodup →
      ((ls.foldl (procJournalLine rt d) a).errorPatterns.map Prod.fst).Nodup := by
    intro ls
    induction ls with
    | nil => exact fun a h => h
    | cons x xt ih2 => exact fun a ha => ih2 _ (nodup_ep_procJournalLine rt d a x ha)
  have aux : ∀ (fs : List (List (Option JVal))) (acc : JAcc),
      (acc.errorPatterns.map Prod.fst).Nodup →
      ((fs.foldl (fun acc file =>
        file.foldl (procJournalLine rt d) { acc with lastToolName := none }) acc).errorPatterns.map
          Prod.fst).Nodup := by
    intro fs
    induction fs with
    | nil => exact fun acc h => h
    | cons f ft ih => exact fun acc h => ih _ (aux2 f _ h)
  exact aux files initJAcc (by simp [initJAcc])

theorem strugDesc_head_rl (n : Nat) : (strugDesc ErrCat.rateLimit n).head? = some 'H' := rfl

theorem strugDesc_head_be (n : Nat) : (strugDesc ErrCat.buildError n).head? = some 'B' := rfl

theorem strugDesc_head_fe (n : Nat) : (strugDesc ErrCat.fileError n).head? = some 'F' := rfl

theorem strugDesc_head_he (n : Nat) : (strugDesc ErrCat.httpError n).head? = some 'S' := rfl

theorem strugDesc_head_ot (n : Nat) : (strugDesc ErrCat.other n).head? = some 'E' := rfl

theorem strugDesc_cat_eq (c c' : ErrCat) (n n' : Nat)
    (he : strugDesc c n = strugDesc c' n') : c = c' := by
  have h1 := congrArg List.head? he
  cases c <;> cases c' <;>
    first
    | rfl
    | (simp only [strugDesc_head_rl, strugDesc_head_be, strugDesc_head_fe, strugDesc_head_he,
          strugDesc_head_ot] at h1
       exact absurd h1 (by decide))

theorem lookupCat_cons (e : ErrCat × Nat) (t : List (ErrCat × Nat)) (c : ErrCat) :
    lookupCat (e :: t) c = if e.1 == c then some e.2 else lookupCat t c := by
  by_cases h : e.1 == c <;> simp [lookupCat, List.find?, h]

theorem lookup_of_mem_nodup (m : List (ErrCat × Nat)) (c : ErrCat) (n : Nat)
    (hnd : (m.map Prod.fst).Nodup) (hm : (c, n) ∈ m) : lookupCat m c = some n := by
  induction m with
  | nil => simp at hm
  | cons e t ih =>
    obtain ⟨e1, e2⟩ := e
    simp only [List.map_cons, List.nodup_cons] at hnd
    rw [lookupCat_cons]
    rcases List.mem_cons.1 hm with h1 | h1
    · injection h1 with hk hn
      subst hk; subst hn
      simp
    · have hc : c ∈ t.map Prod.fst := List.mem_map.2 ⟨(c, n), h1, rfl⟩
      have hne : ((e1, e2).1 == c) = false := by
        refine beq_eq_false_iff_ne.2 (fun h => ?_)
        apply hnd.1
        have h' : e1 = c := h
        rw [h']
        exact hc
      rw [hne]
      simp only [Bool.false_eq_true, if_false]
      exact ih hnd.2 h1

theorem strugglesOf_cons (e : ErrCat × Nat) (t : List (ErrCat × Nat)) :
    strugglesOf (e :: t) =
      (if e.2 ≥ 3 then [strugDesc e.1 e.2] else []) ++ strugglesOf t := by
  simp only [strugglesOf, List.filterMap_cons]
  by_cases h3 : e.2 ≥ 3
  · rw [if_pos h3, if_pos h3]
    rfl
  · rw [if_neg h3, if_neg h3]
    rfl

theorem mem_strugglesOf (m : List (ErrCat × Nat)) (a : Str) (h : a ∈ strugglesOf m) :
    ∃ e ∈ m, 3 ≤ e.2 ∧ a = strugDesc e.1 e.2 := by
  unfold strugglesOf at h
  rcases List.mem_filterMap.1 h with ⟨e, hm, hf⟩
  by_cases h3 : e.2 ≥ 3
  · rw [if_pos h3] at hf
    injection hf with hf
    exact ⟨e, hm, h3, hf.symm⟩
  · rw [if_neg h3] at hf
    simp at hf

theorem not_mem_strugglesOf (m : List (ErrCat × Nat)) (c : ErrCat)
    (hc : c ∉ m.map Prod.fst) (n' : Nat) : strugDesc c n' ∉ strugglesOf m := by
  intro hmem
  rcases mem_strugglesOf m _ hmem with ⟨e, hm, h3, heq⟩
  exact hc (List.mem_map.2 ⟨e, hm, (strugDesc_cat_eq _ _ _ _ heq).symm⟩)

theorem count_strugglesOf_eq_one (m : List (ErrCat × Nat))
    (hnd : (m.map Prod.fst).Nodup) (c : ErrCat) (n : Nat)
    (hc : lookupCat m c = some n) (h3 : 3 ≤ n) :
    (strugglesOf m).count (strugDesc c n) = 1 := by
  induction m with
  | nil => simp [lookupCat] at hc
  | cons e t ih =>
    obtain ⟨e1, e2⟩ := e
    simp only [List.map_cons, List.nodup_cons] at hnd
    rw [lookupCat_cons] at hc
    rw [strugglesOf_cons, List.count_append]
    by_cases hec : ((e1, e2).1 == c)
    · rw [if_pos hec] at hc
      injection hc with hn
      have he1c : e1 = c := beq_iff_eq.1 hec
      subst he1c
      subst hn
      rw [if_pos h3]
      have hzero : (strugglesOf t).count (strugDesc e1 e2) = 0 :=
        List.count_eq_zero.2 (not_mem_strugglesOf t e1 hnd.1 e2)
      rw [hzero]
      simp
    · rw [if_neg hec] at hc
      simp only [Bool.not_eq_true] at hec
      have hne : e1 ≠ c := fun h => by rw [h] at hec; simp at hec
      have h0 : ((if (e1, e2).2 ≥ 3 then [strugDesc (e1, e2).1 (e1, e2).2] else []) :
          List Str).count (strugDesc c n) = 0 := by
        split
        · refine List.count_eq_zero.2 (fun hm => ?_)
          have heq := List.mem_singleton.1 hm
          exact hne ((strugDesc_cat_eq _ _ _ _ heq).symm)
        · rfl
      rw [h0, ih hnd.2 hc]

/-- C7.  For the day's folded error patterns: a category detected exactly
twice produces no struggle entry at all, and a category detected exactly
three times produces exactly one entry, whose templated text contains the
count `3`. -/
theorem C7_struggle_threshold (rt : JsRt) (d : Str) (files : List (List (Option JVal)))
    (c : ErrCat) :
    (lookupCat (journalFold rt d files).errorPatterns c = some 2 →
      ∀ n, strugDesc c n ∉ (parseSessionsForDate rt d files).struggles) ∧
    (lookupCat (journalFold rt d files).errorPatterns c = some 3 →
      (parseSessionsForDate rt d files).struggles.count (strugDesc c 3) = 1 ∧
      jsIncludes (strugDesc c 3) (strOf (r"3")) = true) := by
  have hst : (parseSessionsForDate rt d files).struggles =
      strugglesOf (journalFold rt d files).errorPatterns := rfl
  have hnd := nodup_ep_journalFold rt d files
  constructor
  · intro h2 n
    rw [hst]
    intro hmem
    rcases mem_strugglesOf _ _ hmem with ⟨⟨c₁, k⟩, hm, hk3, heq⟩
    have hcc : c = c₁ := strugDesc_cat_eq _ _ _ _ heq
    subst hcc
    have hlk := lookup_of_mem_nodup _ _ _ hnd hm
    rw [h2] at hlk
    injection hlk with hlk
    omega
  · intro h3
    rw [hst]
    exact ⟨count_strugglesOf_eq_one _ hnd c 3 h3 (by omega), by cases c <;> decide⟩

theorem C7_witness :
    (parseSessionsForDate rtC dateC day3files).struggles.count
      (strugDesc ErrCat.rateLimit 3) = 1 ∧
    jsIncludes (strugDesc ErrCat.rateLimit 3) (strOf (r"3")) = true ∧
    strugDesc ErrCat.rateLimit 2 ∉ (parseSessionsForDate rtC dateC day2files).struggles :=
  ⟨((C7_struggle_threshold rtC dateC day3files ErrCat.rateLimit).2 (by rfl)).1,
   ((C7_struggle_threshold rtC dateC day3files ErrCat.rateLimit).2 (by rfl)).2,
   (C7_struggle_threshold rtC dateC day2files ErrCat.rateLimit).1 (by rfl) 2⟩

theorem mem_foldl_append {α β : Type} (g : α → List β) (l : List α) (init : List β) (it : β)
    (h : it ∈ l.foldl (fun acc f => acc ++ g f) init) : it ∈ init ∨ ∃ f ∈ l, it ∈ g f := by
  induction l generalizing init with
  | nil => exact Or.inl h
  | cons f fs ih =>
    rcases ih (init ++ g f) h with h1 | ⟨f', hf', hit⟩
    · rcases List.mem_append.1 h1 with h2 | h2
      · exact Or.inl h2
      · exact Or.inr ⟨f, List.mem_cons_self _ _, h2⟩
    · exact Or.inr ⟨f', List.mem_cons_of_mem _ hf', hit⟩

/-- C10.  Every item returned by the local activity query comes either
from one of the ten most recently modified session files or from the chat
log: whatever the limit, an event recorded in any other session file
never appears in the result. -/
theorem C10_only_ten_most_recent_files (rt : JsRt) (files : List AFile) (chat : List JVal)
    (limit : Nat) (it : ActivityItem) (h : it ∈ parseSessionActivity rt files chat limit) :
    (∃ f ∈ topTenByMtime files, it ∈ fileActivityItems rt f) ∨ it ∈ chatActivityItems rt chat := by
  unfold parseSessionActivity at h
  have h1 := mem_stableSortDescBy _ _ _ (List.mem_of_mem_take h)
  rcases List.mem_append.1 h1 with h2 | h2
  · rcases mem_foldl_append _ _ _ _ h2 with h3 | h3
    · simp at h3
    · exact Or.inl h3
  · exact Or.inr h2

theorem C10_witness :
    (∃ f ∈ topTenByMtime [fA], itemA ∈ fileActivityItems rtC f) ∨
      itemA ∈ chatActivityItems rtC [] := by
  have heval : parseSessionActivity rtC [fA] [] 5 = [itemA] := rfl
  exact C10_only_ten_most_recent_files rtC [fA] [] 5 itemA
    (heval ▸ List.mem_singleton_self itemA)
